import Mathlib

/-!
Shallow embedding of the cctop server's usage-summary subsystem
(`server/internal/database/database.go`, `server/internal/handlers/handlers.go`,
`server/internal/handlers/debouncer.go`, `internal/pricing/pricing.go`).

Modelling conventions:
* Go `time.Time` values are modelled by a calendar `Date` (year, month, day)
  plus a second-of-day; all times are taken in one fixed location, so the
  `time.Local` / `now.Location()` distinctions in the source collapse.
* SQL tables are modelled as Lean lists of rows; `INSERT OR IGNORE` and
  `ON CONFLICT ... DO UPDATE` are modelled by explicit list operations that
  mirror the statements used in the source.  SQLite guarantees uniqueness via
  the declared keys; the list model keeps the same behaviour because rows are
  only ever added through those statements.
* Go `int64` token counts are modelled as `Int`; `float64` costs as `ℚ`
  (the claims under study are not about floating-point rounding).
* Go map iteration order is unspecified; the model determinizes it with
  insertion-ordered association lists.  No claim below depends on that order.
* `pricing.GetPricing(model, true)` (offline mode, as called by
  `InsertUsageRecords`) reads only the embedded pricing table, which is
  reproduced here.
-/

namespace Cctop

/-! ## Calendar arithmetic -/

/-- A calendar date (proleptic Gregorian, as used by Go `time`). -/
structure Date where
  y : Nat
  m : Nat
  d : Nat
deriving DecidableEq, Repr

/-- A point in time: a date plus a second-of-day (0 ≤ sec < 86400 for
normalized Go times). -/
structure Timestamp where
  date : Date
  sec : Nat
deriving DecidableEq, Repr

/-- Gregorian leap-year rule (Go `time` semantics). -/
def isLeap (y : Nat) : Bool :=
  y % 4 = 0 && (y % 100 ≠ 0 || y % 400 = 0)

/-- Number of days in a month; the Go source obtains this via the
"day 0 of next month" normalization trick in `clampDay`. -/
def daysInMonth (y m : Nat) : Nat :=
  if m = 2 then (if isLeap y then 29 else 28)
  else if m = 4 ∨ m = 6 ∨ m = 9 ∨ m = 11 then 30
  else 31

/-- Embedding of `clampDay` from database.go: the billing day clamped to the last day of
the given month.  The day argument is a day-of-month (the Go `int` is
nonnegative at every call site, which guards `1 ≤ billingDay ≤ 31`). -/
def clampDay (y m day : Nat) : Nat :=
  let lastDay := daysInMonth y m
  if day > lastDay then lastDay else day

/-- Numeric key giving the chronological order of valid dates
(month < 16, day < 32). -/
def Date.key (d : Date) : Nat :=
  (d.y * 16 + d.m) * 32 + d.d

/-- Numeric key giving the chronological order of valid timestamps. -/
def Timestamp.key (t : Timestamp) : Nat :=
  t.date.key * 86400 + t.sec

/-- The calendar day before `d` (Go `time.Date(...).Add(-time.Second)`
normalization for midnight boundaries). -/
def prevDate (d : Date) : Date :=
  if d.d > 1 then ⟨d.y, d.m, d.d - 1⟩
  else if d.m > 1 then ⟨d.y, d.m - 1, daysInMonth d.y (d.m - 1)⟩
  else ⟨d.y - 1, 12, 31⟩

/-- Midnight at the start of a date. -/
def midnight (d : Date) : Timestamp := ⟨d, 0⟩

/-- One second before midnight of date `d` (i.e. `time.Date(d, 0:00) - 1s`):
23:59:59 of the previous day. -/
def lastSecondBefore (d : Date) : Timestamp := ⟨prevDate d, 86399⟩

/-! ## Pricing (`internal/pricing/pricing.go`, offline mode) -/

/-- Per-token pricing for a model (`model.ModelPricing`). -/
structure ModelPricing where
  inputCostPerToken : ℚ
  outputCostPerToken : ℚ
  cacheCreationCostPerToken : ℚ
  cacheReadCostPerToken : ℚ
deriving DecidableEq, Repr

/-- Embedding of `GetEmbeddedPricing` from pricing.go: the fallback embedded table used in
offline mode. -/
def GetEmbeddedPricing : List (String × ModelPricing) :=
  [ ("claude-opus-4-5-20251101", ⟨5/1000000, 25/1000000, 625/100000000, 5/10000000⟩)
  , ("claude-opus-4-5", ⟨5/1000000, 25/1000000, 625/100000000, 5/10000000⟩)
  , ("claude-opus-4-1-20250805", ⟨15/1000000, 75/1000000, 1875/100000000, 15/10000000⟩)
  , ("claude-opus-4-1", ⟨15/1000000, 75/1000000, 1875/100000000, 15/10000000⟩)
  , ("claude-opus-4-20250514", ⟨15/1000000, 75/1000000, 1875/100000000, 15/10000000⟩)
  , ("claude-4-opus-20250514", ⟨15/1000000, 75/1000000, 1875/100000000, 15/10000000⟩)
  , ("claude-sonnet-4-5-20250929", ⟨3/1000000, 15/1000000, 375/100000000, 3/10000000⟩)
  , ("claude-sonnet-4-5", ⟨3/1000000, 15/1000000, 375/100000000, 3/10000000⟩)
  , ("claude-sonnet-4-20250514", ⟨3/1000000, 15/1000000, 375/100000000, 3/10000000⟩)
  , ("claude-4-sonnet-20250514", ⟨3/1000000, 15/1000000, 375/100000000, 3/10000000⟩)
  , ("claude-3-7-sonnet-20250219", ⟨3/1000000, 15/1000000, 375/100000000, 3/10000000⟩)
  , ("claude-3-5-sonnet-20241022", ⟨3/1000000, 15/1000000, 375/100000000, 3/10000000⟩)
  , ("claude-3-5-sonnet-20240620", ⟨3/1000000, 15/1000000, 375/100000000, 3/10000000⟩)
  , ("claude-haiku-4-5-20251001", ⟨1/1000000, 5/1000000, 125/100000000, 1/10000000⟩)
  , ("claude-haiku-4-5", ⟨1/1000000, 5/1000000, 125/100000000, 1/10000000⟩)
  , ("claude-3-5-haiku-20241022", ⟨8/10000000, 4/1000000, 1/1000000, 8/100000000⟩)
  , ("claude-3-haiku-20240307", ⟨25/100000000, 125/100000000, 3/10000000, 3/100000000⟩)
  , ("claude-3-opus-20240229", ⟨15/1000000, 75/1000000, 1875/100000000, 15/10000000⟩) ]

/-- Embedding of `normalizeModelName` from pricing.go. -/
def normalizeModelName (name : String) : String :=
  ((name.toLower).replace "-" "").replace "_" ""

/-- The default pricing used for unknown models (Sonnet 4 pricing). -/
def defaultPricing : ModelPricing :=
  ⟨3/1000000, 15/1000000, 375/100000000, 3/10000000⟩

/-- Embedding of `GetPricing(modelName, true)` from pricing.go: offline mode reads the
embedded table; exact match, then normalized-name match, then the default. -/
def GetPricing (modelName : String) : ModelPricing :=
  match GetEmbeddedPricing.find? (fun p => p.1 == modelName) with
  | some p => p.2
  | none =>
    match GetEmbeddedPricing.find?
        (fun p => normalizeModelName p.1 == normalizeModelName modelName) with
    | some p => p.2
    | none => defaultPricing

/-! ## Data model -/

/-- A usage record as received from a client (`database.UsageRecord`; the
`cost` column is computed at insert time and lives on the stored row). -/
structure UsageRecord where
  userId : String
  clientId : String
  ts : Timestamp
  sessionId : String
  projectPath : String
  model : String
  input : Int
  output : Int
  cacheCreation : Int
  cacheRead : Int
deriving DecidableEq, Repr

/-- The natural key of a usage record: the `UNIQUE(user_id, client_id,
timestamp, session_id, model)` constraint of the `usage_records` table. -/
def naturalKey (r : UsageRecord) : String × String × Timestamp × String × String :=
  (r.userId, r.clientId, r.ts, r.sessionId, r.model)

/-- Embedding of `CalculateCost` from pricing.go applied to a record's token counts. -/
def recordCost (r : UsageRecord) : ℚ :=
  let p := GetPricing r.model
  (r.input : ℚ) * p.inputCostPerToken
    + (r.output : ℚ) * p.outputCostPerToken
    + (r.cacheCreation : ℚ) * p.cacheCreationCostPerToken
    + (r.cacheRead : ℚ) * p.cacheReadCostPerToken

/-- A stored `usage_records` row: the record plus its computed `cost` column. -/
structure StoredRecord where
  ur : UsageRecord
  cost : ℚ
deriving DecidableEq, Repr

/-- The `period_type` column of `usage_summary`. -/
inductive PeriodType where
  | day
  | month
  | cycle
deriving DecidableEq, Repr

/-- The `period_key` column of `usage_summary`.  Day keys are the
`"2006-01-02"` format, month keys `"2006-01"`; both are zero-padded decimal,
so string order coincides with the componentwise order used here.  Cycle keys
are the `"Jan 2 – Jan 2"` format: start month and day, end month and day —
the year does not appear in a cycle key. -/
inductive PKey where
  | day (d : Date)
  | month (y m : Nat)
  | cycle (sm sd em ed : Nat)
deriving DecidableEq, Repr

/-- Aggregated token counts and cost. -/
structure Agg where
  input : Int
  output : Int
  cacheCreation : Int
  cacheRead : Int
  cost : ℚ
deriving DecidableEq, Repr

/-- Zero aggregate (the `COALESCE(SUM(...), 0)` base). -/
def Agg.zero : Agg := ⟨0, 0, 0, 0, 0⟩

/-- Add one stored record into an aggregate. -/
def Agg.addRecord (a : Agg) (s : StoredRecord) : Agg :=
  ⟨a.input + s.ur.input, a.output + s.ur.output,
   a.cacheCreation + s.ur.cacheCreation, a.cacheRead + s.ur.cacheRead,
   a.cost + s.cost⟩

/-- Sum of token counts and cost over a list of stored records. -/
def sumRecords (l : List StoredRecord) : Agg :=
  l.foldl Agg.addRecord Agg.zero

/-- A `usage_summary` row. -/
structure SummaryRow where
  userId : String
  ptype : PeriodType
  key : PKey
  periodStart : Timestamp
  periodEnd : Timestamp
  agg : Agg
deriving DecidableEq, Repr

/-- The durable state: the two logical tables. -/
structure State where
  records : List StoredRecord
  summaries : List SummaryRow
deriving DecidableEq, Repr

/-- The empty database. -/
def State.empty : State := ⟨[], []⟩

/-! ## Period calculator (`GetBillingPeriod`) -/

/-- Embedding of `GetBillingPeriod` from database.go, with the current time injected.
The Go function returns a pair of zero `time.Time` values when the billing
day is disabled or out of range; that sentinel is modelled as `none`. -/
def GetBillingPeriod (billingDay : Nat) (now : Date) : Option (Timestamp × Timestamp) :=
  if billingDay = 0 ∨ billingDay > 31 then none
  else
    let periodStart : Date :=
      if now.d ≥ clampDay now.y now.m billingDay then
        -- current period started this month
        ⟨now.y, now.m, clampDay now.y now.m billingDay⟩
      else
        -- current period started last month
        if now.m > 1 then ⟨now.y, now.m - 1, clampDay now.y (now.m - 1) billingDay⟩
        else ⟨now.y - 1, 12, clampDay (now.y - 1) 12 billingDay⟩
    -- period end is one month after start, also clamped
    let em0 : Nat := if now.d < clampDay now.y now.m billingDay then now.m else now.m + 1
    let ey : Nat := if em0 > 12 then now.y + 1 else now.y
    let em : Nat := if em0 > 12 then 1 else em0
    let periodEnd : Timestamp := lastSecondBefore ⟨ey, em, clampDay ey em billingDay⟩
    some (midnight periodStart, periodEnd)

/-- The period start as the specification describes it: the anchor clamped to
the current month's actual last day; the period starts this month at the
clamped day when today's day-of-month has reached it, otherwise at the
previous month's clamped anchor (January rolls back to December of the
previous year). -/
def claimedBillingStart (billingDay : Nat) (now : Date) : Date :=
  if now.d ≥ clampDay now.y now.m billingDay then
    ⟨now.y, now.m, clampDay now.y now.m billingDay⟩
  else if now.m > 1 then ⟨now.y, now.m - 1, clampDay now.y (now.m - 1) billingDay⟩
  else ⟨now.y - 1, 12, clampDay (now.y - 1) 12 billingDay⟩

/-- Start date of the billing cycle containing date `d`, as computed inside
`UpdateSummaries` and `RebuildCycleSummaries` (both use the same code). -/
def cycleStartDate (billingDay : Nat) (d : Date) : Date :=
  let clampedDay := clampDay d.y d.m billingDay
  if d.d ≥ clampedDay then ⟨d.y, d.m, clampedDay⟩
  else
    if d.m > 1 then ⟨d.y, d.m - 1, clampDay d.y (d.m - 1) billingDay⟩
    else ⟨d.y - 1, 12, clampDay (d.y - 1) 12 billingDay⟩

/-- End of the billing cycle that starts at `start`: the clamped anchor of the
following month, minus one second. -/
def cycleEndTs (billingDay : Nat) (start : Date) : Timestamp :=
  let ny : Nat := if start.m + 1 > 12 then start.y + 1 else start.y
  let nm : Nat := if start.m + 1 > 12 then 1 else start.m + 1
  lastSecondBefore ⟨ny, nm, clampDay ny nm billingDay⟩

/-- The cycle period key: `cycleStart.Format("Jan 2") + " – " +
cycleEnd.Format("Jan 2")`.  Months and days only — no year. -/
def cycleKeyOf (start : Date) (endTs : Timestamp) : PKey :=
  .cycle start.m start.d endTs.date.m endTs.date.d

/-- Cycle key, start and end for the cycle containing date `d`. -/
def cycleInfo (billingDay : Nat) (d : Date) : PKey × Timestamp × Timestamp :=
  let s := cycleStartDate billingDay d
  let e := cycleEndTs billingDay s
  (cycleKeyOf s e, midnight s, e)

/-! ## Usage store (`InsertUsageRecords`) -/

/-- Whether a record with the same natural key is already stored
(the `INSERT OR IGNORE` duplicate test). -/
def hasNaturalKey (recs : List StoredRecord) (r : UsageRecord) : Bool :=
  recs.any (fun s => naturalKey s.ur == naturalKey r)

/-- The insert loop of `InsertUsageRecords`, threading the state and the
running count of affected rows. -/
def insertGo (st : State) (n : Nat) : List UsageRecord → State × Nat
  | [] => (st, n)
  | r :: rs =>
    if hasNaturalKey st.records r then insertGo st n rs
    else insertGo { st with records := st.records ++ [⟨r, recordCost r⟩] } (n + 1) rs

/-- Embedding of `InsertUsageRecords` from database.go: one transaction inserting each
record with `INSERT OR IGNORE`, computing its cost from the offline pricing
table; returns the new state and the number of newly inserted rows. -/
def InsertUsageRecords (batch : List UsageRecord) (st : State) : State × Nat :=
  insertGo st 0 batch

/-! ## Aggregation queries over raw records -/

/-- Raw-record rows of a user on a given calendar day
(`WHERE user_id = ? AND DATE(timestamp) = ?`). -/
def recsOnDay (u : String) (d : Date) (recs : List StoredRecord) : List StoredRecord :=
  recs.filter (fun s => s.ur.userId == u && s.ur.ts.date == d)

/-- Raw-record rows of a user in a given calendar month
(`WHERE user_id = ? AND strftime of %Y-%m = ?`). -/
def recsInMonth (u : String) (y m : Nat) (recs : List StoredRecord) : List StoredRecord :=
  recs.filter (fun s => s.ur.userId == u && s.ur.ts.date.y == y && s.ur.ts.date.m == m)

/-- Raw-record rows of a user in an inclusive timestamp range
(`WHERE user_id = ? AND timestamp >= ? AND timestamp <= ?`). -/
def recsInRange (u : String) (a b : Timestamp) (recs : List StoredRecord) : List StoredRecord :=
  recs.filter (fun s => s.ur.userId == u && a.key ≤ s.ur.ts.key && s.ur.ts.key ≤ b.key)

/-! ## Summary store (`UpdateSummaries`) -/

/-- Whether a summary row has the given user/type/key triple (the
`PRIMARY KEY (user_id, period_type, period_key)`). -/
def rowMatches (u : String) (pt : PeriodType) (k : PKey) (s : SummaryRow) : Bool :=
  s.userId == u && s.ptype == pt && s.key == k

/-- The upsert statement of `UpdateSummaries`:
`INSERT ... ON CONFLICT(user_id, period_type, period_key) DO UPDATE SET`
replaces only the aggregate columns (not `period_start`/`period_end`). -/
def upsert (row : SummaryRow) (table : List SummaryRow) : List SummaryRow :=
  if table.any (rowMatches row.userId row.ptype row.key) then
    table.map (fun s => if rowMatches row.userId row.ptype row.key s
                        then { s with agg := row.agg } else s)
  else table ++ [row]

/-- Insertion-ordered key deduplication (stand-in for the Go `map` key sets;
keeps the last occurrence order like `List.dedup`). -/
def dedupKeys {α : Type} [DecidableEq α] (l : List α) : List α :=
  l.dedup

/-- Association-list accumulation for `affectedCycles`: later values for the
same key overwrite earlier ones, as with Go map assignment. -/
def addAssoc (acc : List (PKey × Timestamp × Timestamp)) (c : PKey × Timestamp × Timestamp) :
    List (PKey × Timestamp × Timestamp) :=
  if acc.any (fun e => e.1 == c.1) then
    acc.map (fun e => if e.1 == c.1 then c else e)
  else acc ++ [c]

/-- The affected-cycle set derived from a batch (empty unless
`billingDay > 0 && billingDay <= 31`). -/
def affectedCycles (billingDay : Nat) (batch : List UsageRecord) :
    List (PKey × Timestamp × Timestamp) :=
  if 0 < billingDay ∧ billingDay ≤ 31 then
    (batch.map (fun r => cycleInfo billingDay r.ts.date)).foldl addAssoc []
  else []

/-- The day summary row for user `u` and day `d`, re-summed from the raw
records (`period_start` = midnight, `period_end` = 23:59:59). -/
def dayRowFor (u : String) (d : Date) (recs : List StoredRecord) : SummaryRow :=
  ⟨u, .day, .day d, midnight d, ⟨d, 86399⟩, sumRecords (recsOnDay u d recs)⟩

/-- The month summary row for user `u` and month `(y, m)`, re-summed from the
raw records. -/
def monthRowFor (u : String) (y m : Nat) (recs : List StoredRecord) : SummaryRow :=
  let ny : Nat := if m + 1 > 12 then y + 1 else y
  let nm : Nat := if m + 1 > 12 then 1 else m + 1
  ⟨u, .month, .month y m, midnight ⟨y, m, 1⟩, lastSecondBefore ⟨ny, nm, 1⟩,
   sumRecords (recsInMonth u y m recs)⟩

/-- The cycle summary row for user `u` and the cycle `(k, start, end)`,
re-summed from the raw records by inclusive timestamp range. -/
def cycleRowFor (u : String) (c : PKey × Timestamp × Timestamp)
    (recs : List StoredRecord) : SummaryRow :=
  ⟨u, .cycle, c.1, c.2.1, c.2.2, sumRecords (recsInRange u c.2.1 c.2.2 recs)⟩

/-- The summary table after the three upsert passes of `UpdateSummaries`
(days, then months, then cycles), re-summing each affected period from the
stored records `recs`. -/
def summariesAfterUpdate (u : String) (billingDay : Nat) (batch : List UsageRecord)
    (recs : List StoredRecord) (t0 : List SummaryRow) : List SummaryRow :=
  let affDays := dedupKeys (batch.map (fun r => r.ts.date))
  let affMonths := dedupKeys (batch.map (fun r => (r.ts.date.y, r.ts.date.m)))
  let affCycles := affectedCycles billingDay batch
  let t1 := affDays.foldl (fun t d => upsert (dayRowFor u d recs) t) t0
  let t2 := affMonths.foldl (fun t p => upsert (monthRowFor u p.1 p.2 recs) t) t1
  affCycles.foldl (fun t c => upsert (cycleRowFor u c recs) t) t2

/-- Embedding of `UpdateSummaries` from database.go: derive the affected day / month /
cycle keys from the batch only, then re-sum each affected period from the
stored records and upsert its summary row, all in one transaction. -/
def UpdateSummaries (u : String) (billingDay : Nat) (batch : List UsageRecord)
    (st : State) : State :=
  if batch = [] then st
  else { st with summaries := summariesAfterUpdate u billingDay batch st.records st.summaries }

/-! ## Query facade -/

/-- Sort key of a summary period key: for day and month keys the zero-padded
string formats order exactly like this numeric encoding; cycle rows are
ordered by `period_start` instead. -/
def PKey.sortKey : PKey → Nat
  | .day d => d.key
  | .month y m => y * 16 + m
  | .cycle _ _ _ _ => 0

/-- Insert into a list sorted in descending order of `f`. -/
def insDesc {α : Type} (f : α → Nat) (x : α) : List α → List α
  | [] => [x]
  | y :: ys => if f y ≤ f x then x :: y :: ys else y :: insDesc f x ys

/-- Insertion sort, descending by `f` (model of `ORDER BY ... DESC`). -/
def sortDesc {α : Type} (f : α → Nat) : List α → List α
  | [] => []
  | x :: xs => insDesc f x (sortDesc f xs)

/-- One aggregated result row (`database.AggregatedUsage`; the formatted
`Period` string is represented by the period key). -/
structure AggregatedUsage where
  period : PKey
  usage : Agg
deriving DecidableEq, Repr

/-- The summary rows returned by the `GetUsageByDay` summary query: day rows
of the user whose key is not today, optionally restricted to
`period_start >= billing period start`, newest first, `LIMIT 30`. -/
def dayQueryRows (u : String) (billingDay : Nat) (st : State) (now : Date) :
    List SummaryRow :=
  let rows := st.summaries.filter (fun s =>
    s.userId == u && s.ptype == PeriodType.day && s.key != PKey.day now
      && (match GetBillingPeriod billingDay now with
          | some (ps, _) => decide (ps.key ≤ s.periodStart.key)
          | none => true))
  (sortDesc (fun s => s.key.sortKey) rows).take 30

/-- The persisted part of `GetUsageByDay`: completed days from the summary
table. -/
def dayQuerySummaries (u : String) (billingDay : Nat) (st : State) (now : Date) :
    List AggregatedUsage :=
  (dayQueryRows u billingDay st now).map (fun s => ⟨s.key, s.agg⟩)

/-- Embedding of `GetUsageByDay` from database.go: persisted completed days plus today
computed live from raw records, prepended only when its summed input or
output tokens are positive. -/
def GetUsageByDay (u : String) (billingDay : Nat) (st : State) (now : Date) :
    List AggregatedUsage :=
  let results := dayQuerySummaries u billingDay st now
  let todayUsage := sumRecords (recsOnDay u now st.records)
  if todayUsage.input > 0 ∨ todayUsage.output > 0 then
    ⟨PKey.day now, todayUsage⟩ :: results
  else results

/-- The summary rows returned by the `GetUsageByMonth` summary query:
completed months, newest first, `LIMIT 12`. -/
def monthQueryRows (u : String) (st : State) (now : Date) : List SummaryRow :=
  let rows := st.summaries.filter (fun s =>
    s.userId == u && s.ptype == PeriodType.month && s.key != PKey.month now.y now.m)
  (sortDesc (fun s => s.key.sortKey) rows).take 12

/-- The persisted part of `GetUsageByMonth`. -/
def monthQuerySummaries (u : String) (st : State) (now : Date) :
    List AggregatedUsage :=
  (monthQueryRows u st now).map (fun s => ⟨s.key, s.agg⟩)

/-- Embedding of `GetUsageByMonth` from database.go. -/
def GetUsageByMonth (u : String) (st : State) (now : Date) : List AggregatedUsage :=
  let results := monthQuerySummaries u st now
  let currentUsage := sumRecords (recsInMonth u now.y now.m st.records)
  if currentUsage.input > 0 ∨ currentUsage.output > 0 then
    ⟨PKey.month now.y now.m, currentUsage⟩ :: results
  else results

/-- The summary rows returned by the `GetUsageByBillingCycle` summary query:
completed cycles (rows whose key differs from the current cycle key), ordered
by `period_start` descending, no limit. -/
def cycleQueryRows (u : String) (currentKey : PKey) (st : State) : List SummaryRow :=
  let rows := st.summaries.filter (fun s =>
    s.userId == u && s.ptype == PeriodType.cycle && s.key != currentKey)
  sortDesc (fun s => s.periodStart.key) rows

/-- The persisted part of `GetUsageByBillingCycle`. -/
def cycleQuerySummaries (u : String) (currentKey : PKey) (st : State) :
    List AggregatedUsage :=
  (cycleQueryRows u currentKey st).map (fun s => ⟨s.key, s.agg⟩)

/-- Embedding of `GetUsageByBillingCycle` from database.go: `nil` for a disabled or
out-of-range billing day, otherwise completed cycles plus the current cycle
computed live from raw records. -/
def GetUsageByBillingCycle (u : String) (billingDay : Nat) (st : State) (now : Date) :
    List AggregatedUsage :=
  match GetBillingPeriod billingDay now with
  | none => []
  | some (cycleStart, cycleEnd) =>
    let currentKey := cycleKeyOf cycleStart.date cycleEnd
    let results := cycleQuerySummaries u currentKey st
    let currentUsage := sumRecords (recsInRange u cycleStart cycleEnd st.records)
    if currentUsage.input > 0 ∨ currentUsage.output > 0 then
      ⟨currentKey, currentUsage⟩ :: results
    else results

/-! ## Cycle-summary rebuild (`RebuildCycleSummaries`) -/

/-- The date encoded in a day-type period key.  `RebuildCycleSummaries`
parses the key string with `time.Parse("2006-01-02", ...)`, ignoring the
error; a non-day key would parse to the zero time (year 1). -/
def dayKeyDate : PKey → Date
  | .day d => d
  | _ => ⟨1, 1, 1⟩

/-- Accumulator entry of the rebuild: one cycle bucket. -/
structure CycleAcc where
  key : PKey
  cstart : Timestamp
  cend : Timestamp
  agg : Agg
deriving DecidableEq, Repr

/-- Fold one day-summary row into the cycle buckets, as in the rebuild loop:
start and end are overwritten, aggregates are added. -/
def addDayToCycles (billingDay : Nat) (acc : List CycleAcc) (row : SummaryRow) :
    List CycleAcc :=
  let d := dayKeyDate row.key
  let s := cycleStartDate billingDay d
  let e := cycleEndTs billingDay s
  let k := cycleKeyOf s e
  if acc.any (fun c => c.key == k) then
    acc.map (fun c => if c.key == k
                      then ⟨k, midnight s, e,
                            ⟨c.agg.input + row.agg.input, c.agg.output + row.agg.output,
                             c.agg.cacheCreation + row.agg.cacheCreation,
                             c.agg.cacheRead + row.agg.cacheRead,
                             c.agg.cost + row.agg.cost⟩⟩
                      else c)
  else acc ++ [⟨k, midnight s, e, row.agg⟩]

/-- The rebuilt cycle rows for user `u`: every day-type summary row of the
user re-bucketed into cycle keys for the given anchor. -/
def rebuiltCycleRows (u : String) (billingDay : Nat) (summaries : List SummaryRow) :
    List SummaryRow :=
  let dayRows := summaries.filter (fun s => s.userId == u && s.ptype == PeriodType.day)
  (dayRows.foldl (addDayToCycles billingDay) []).map
    (fun c => ⟨u, .cycle, c.key, c.cstart, c.cend, c.agg⟩)

/-- Embedding of `RebuildCycleSummaries` from database.go: delete all cycle rows of the
user, then (if the anchor is in range) re-bucket the user's day summary rows
into new cycle rows.  Raw records are never read. -/
def RebuildCycleSummaries (u : String) (billingDay : Nat) (st : State) : State :=
  let cleared := st.summaries.filter (fun s =>
    !(s.userId == u && s.ptype == PeriodType.cycle))
  if billingDay = 0 ∨ billingDay > 31 then { st with summaries := cleared }
  else { st with summaries := cleared ++ rebuiltCycleRows u billingDay st.summaries }

/-! ## Debouncer (`handlers/debouncer.go`)

`SummaryDebouncer` holds a mutex-guarded map from user id to a pending
update; each `Schedule` call arms a delayed `flush` tagged with the current
generation.  The map is modelled as a function `String → Option
PendingUpdate`; timer firings are modelled as explicit `flushDeb` calls (the
timer delay itself carries no data beyond the tagged generation). -/

/-- Embedding of `pendingUpdate` from debouncer.go. -/
structure PendingUpdate where
  generation : Nat
  billingDay : Nat
  records : List UsageRecord
deriving DecidableEq, Repr

/-- The debouncer's pending map. -/
def DebMap : Type := String → Option PendingUpdate

/-- Update the pending map at one user. -/
def DebMap.set (p : DebMap) (u : String) (v : Option PendingUpdate) : DebMap :=
  fun x => if x = u then v else p x

/-- Embedding of `Schedule` from debouncer.go: append records and bump the generation if
a pending update exists, else create generation 1.  Returns the new map and
the generation tagged onto the armed timer. -/
def Schedule (u : String) (billingDay : Nat) (records : List UsageRecord)
    (p : DebMap) : DebMap × Nat :=
  match p u with
  | some pu =>
    (p.set u (some ⟨pu.generation + 1, billingDay, pu.records ++ records⟩),
     pu.generation + 1)
  | none => (p.set u (some ⟨1, billingDay, records⟩), 1)

/-- Embedding of `flush` from debouncer.go: a no-op if the pending record is gone or its
generation does not match the timer's tagged generation; otherwise removes
the pending record and returns the payload handed to `UpdateSummaries`. -/
def flushDeb (u : String) (generation : Nat) (p : DebMap) :
    DebMap × Option (Nat × List UsageRecord) :=
  match p u with
  | some pu =>
    if pu.generation = generation then (p.set u none, some (pu.billingDay, pu.records))
    else (p, none)
  | none => (p, none)

/-- A burst of `Schedule` calls for one user (billing day and batch per call). -/
def scheduleAll (u : String) (calls : List (Nat × List UsageRecord)) (p : DebMap) :
    DebMap :=
  calls.foldl (fun p c => (Schedule u c.1 c.2 p).1) p

/-- Fire a sequence of flush timers (tagged generations, in firing order);
collects the payloads actually handed to `UpdateSummaries`. -/
def fireAll (u : String) : List Nat → DebMap → DebMap × List (Nat × List UsageRecord)
  | [], p => (p, [])
  | g :: gs, p =>
    let r := flushDeb u g p
    let rest := fireAll u gs r.1
    (rest.1, r.2.toList ++ rest.2)

/-! ## Request handler (`handlers.go`, `APISync` after auth and parsing) -/

/-- One observable call made by the sync request handler. -/
inductive SyncOp where
  | getOrCreateClient (u cid : String)
  | insertRecords (batch : List UsageRecord)
  | updateSummariesCall (u : String) (billingDay : Nat) (batch : List UsageRecord)
  | scheduleCall (u : String) (billingDay : Nat) (batch : List UsageRecord)
  | updateClientLastSync (cid : String)
deriving DecidableEq, Repr

/-- The calls `APISync` performs for an authenticated request with a nonempty
converted batch (handlers.go lines 350–395): get-or-create the client, insert
the records, then — synchronously, only when `inserted > 0` — update the
summaries, and finally update the client's last-sync time. -/
def apiSyncOps (u : String) (billingDay : Nat) (cid : String)
    (batch : List UsageRecord) (st : State) : List SyncOp :=
  let inserted := (InsertUsageRecords batch st).2
  [SyncOp.getOrCreateClient u cid, SyncOp.insertRecords batch]
    ++ (if 0 < inserted then [SyncOp.updateSummariesCall u billingDay batch] else [])
    ++ [SyncOp.updateClientLastSync cid]

/-- The database state after `APISync` processes the batch. -/
def apiSyncState (u : String) (billingDay : Nat) (batch : List UsageRecord)
    (st : State) : State :=
  let r := InsertUsageRecords batch st
  if 0 < r.2 then UpdateSummaries u billingDay batch r.1 else r.1

/-- Modelled from the spec: the ingestion-boundary contract "the
request-handling layer owns authentication/parsing and calls `insert` then
`schedule`" — the summary recomputation goes through the debounced schedule
path and is not performed synchronously inside the handler. -/
def specIngestionPath (ops : List SyncOp) : Prop :=
  (∃ b, SyncOp.insertRecords b ∈ ops)
    ∧ (∃ u bd b, SyncOp.scheduleCall u bd b ∈ ops)
    ∧ ∀ u bd b, SyncOp.updateSummariesCall u bd b ∉ ops

/-! ## Fallible storage steps (transaction semantics)

For the atomicity claim the storage layer is modelled with a failure oracle:
`fail k = true` means the k-th fallible storage step (statement execution,
row query, or commit) of the operation errors.  `InsertUsageRecords` and
`UpdateSummaries` run inside one transaction (`db.Begin` … `defer
tx.Rollback()` … `tx.Commit()`): any step failure aborts and nothing is
visible, so the transactional run either applies the whole pure function or
leaves the state untouched.  `RebuildCycleSummaries` issues plain `db.Exec`
calls with no transaction: each write is visible immediately. -/

/-- Transactional run of `InsertUsageRecords`: one fallible step per record
statement plus a final commit step. -/
def runInsertE (fail : Nat → Bool) (batch : List UsageRecord) (st : State) :
    Option Nat × State :=
  if (List.range (batch.length + 1)).any fail then (none, st)
  else (some (InsertUsageRecords batch st).2, (InsertUsageRecords batch st).1)

/-- Number of fallible steps of `UpdateSummaries`: a re-sum query plus an
upsert execution per affected period, and a final commit. -/
def updateStepCount (billingDay : Nat) (batch : List UsageRecord) : Nat :=
  2 * (dedupKeys (batch.map (fun r => r.ts.date))).length
    + 2 * (dedupKeys (batch.map (fun r => (r.ts.date.y, r.ts.date.m)))).length
    + 2 * (affectedCycles billingDay batch).length + 1

/-- Transactional run of `UpdateSummaries`. -/
def runUpdateE (fail : Nat → Bool) (u : String) (billingDay : Nat)
    (batch : List UsageRecord) (st : State) : Option Unit × State :=
  if batch = [] then (some (), st)
  else if (List.range (updateStepCount billingDay batch)).any fail then (none, st)
  else (some (), UpdateSummaries u billingDay batch st)

/-- The non-transactional insert loop of `RebuildCycleSummaries`: each cycle
row is written with its own `db.Exec`; a failure aborts the loop but keeps
the writes already made. -/
def rebuildInsertLoop (fail : Nat → Bool) (k : Nat) (rows : List SummaryRow)
    (st : State) : Option Unit × State :=
  match rows with
  | [] => (some (), st)
  | r :: rs =>
    if fail k then (none, st)
    else rebuildInsertLoop fail (k + 1) rs { st with summaries := st.summaries ++ [r] }

/-- Non-transactional run of `RebuildCycleSummaries`: step 0 is the `DELETE`,
step 1 the day-summary query, steps 2… the per-cycle inserts.  The delete and
every completed insert stay visible even if a later step fails. -/
def runRebuildE (fail : Nat → Bool) (u : String) (billingDay : Nat) (st : State) :
    Option Unit × State :=
  if fail 0 then (none, st)
  else
    let cleared := { st with summaries := st.summaries.filter (fun s =>
      !(s.userId == u && s.ptype == PeriodType.cycle)) }
    if billingDay = 0 ∨ billingDay > 31 then (some (), cleared)
    else if fail 1 then (none, cleared)
    else rebuildInsertLoop fail 2 (rebuiltCycleRows u billingDay st.summaries) cleared

/-! ## The faithful ingestion step and concrete inputs

`insertThenUpdate` is the composite performed per sync batch when the batch
is passed along faithfully from the insert to the summary update (as the
handler and the debouncer hand-off do). -/

/-- Insert a batch and then update the summaries with the same batch. -/
def insertThenUpdate (u : String) (billingDay : Nat) (batch : List UsageRecord)
    (st : State) : State :=
  UpdateSummaries u billingDay batch (InsertUsageRecords batch st).1

/-- A usage record of user `"u"` with the given date and input tokens. -/
def mkRec (d : Date) (input : Int) : UsageRecord :=
  ⟨"u", "c", ⟨d, 100⟩, "s", "p", "claude-3-opus-20240229", input, 0, 0, 0⟩

/-- Failing input for the closed-period invariant: a record in January 2023. -/
def c1Rec2023 : UsageRecord := mkRec ⟨2023, 1, 10⟩ 10

/-- Failing input for the closed-period invariant: a record in January 2024 —
one year after `c1Rec2023`, so both fall in cycles with the year-less key
`"Jan 1 – Jan 31"` under anchor 1. -/
def c1Rec2024 : UsageRecord := mkRec ⟨2024, 1, 10⟩ 20

/-- State after faithfully syncing the two January batches under anchor 1. -/
def c1Final : State :=
  insertThenUpdate "u" 1 [c1Rec2024] (insertThenUpdate "u" 1 [c1Rec2023] State.empty)

/-- A day summary row of user `"u"` carrying only a cost. -/
def mkDayRow (d : Date) (c : ℚ) : SummaryRow :=
  ⟨"u", .day, .day d, midnight d, ⟨d, 86399⟩, ⟨0, 0, 0, 0, c⟩⟩

/-- The cycle-rebuild scenario state: day summaries 2024-01-10 ($1) and
2024-01-20 ($2). -/
def c4State : State := ⟨[], [mkDayRow ⟨2024, 1, 10⟩ 1, mkDayRow ⟨2024, 1, 20⟩ 2]⟩

/-- A pre-existing cycle summary row, used to exhibit the non-atomicity of
the cycle rebuild. -/
def c5OldCycleRow : SummaryRow :=
  ⟨"u", .cycle, .cycle 12 15 1 14, midnight ⟨2023, 12, 15⟩, ⟨⟨2024, 1, 14⟩, 86399⟩,
   ⟨7, 0, 0, 0, 0⟩⟩

/-- State before a failing rebuild: one day summary and one cycle summary. -/
def c5State : State := ⟨[], [mkDayRow ⟨2024, 1, 10⟩ 1, c5OldCycleRow]⟩

/-- Failure oracle that fails the first per-cycle `INSERT` of the rebuild
(step 2), after the `DELETE` (step 0) and the day-row query (step 1). -/
def c5Oracle : Nat → Bool := fun k => k = 2

/-- A record with activity consisting only of cache-read tokens. -/
def c9Record : UsageRecord :=
  ⟨"u", "c", ⟨⟨2024, 5, 15⟩, 3600⟩, "s", "p", "m", 0, 0, 0, 100⟩

/-- State holding only the cache-only record, obtained through the real
insert path. -/
def c9State : State := (InsertUsageRecords [c9Record] State.empty).1

/-- A plain sample record used for concrete witnesses. -/
def sampleRec : UsageRecord := mkRec ⟨2024, 5, 15⟩ 5

/-! ## Lemmas: insertion sort (model of `ORDER BY ... DESC`) -/

theorem length_insDesc {α : Type} (f : α → Nat) (x : α) (l : List α) :
    (insDesc f x l).length = l.length + 1 := by
  induction l with
  | nil => rfl
  | cons y ys ih => simp only [insDesc]; split <;> simp [ih]

theorem length_sortDesc {α : Type} (f : α → Nat) (l : List α) :
    (sortDesc f l).length = l.length := by
  induction l with
  | nil => rfl
  | cons x xs ih => simp [sortDesc, length_insDesc, ih]

theorem mem_insDesc {α : Type} (f : α → Nat) (x a : α) (l : List α) :
    a ∈ insDesc f x l ↔ a = x ∨ a ∈ l := by
  induction l with
  | nil => simp [insDesc]
  | cons y ys ih =>
    simp only [insDesc]
    split
    · simp [ih]
    · simp [ih]; tauto

theorem mem_sortDesc {α : Type} (f : α → Nat) (a : α) (l : List α) :
    a ∈ sortDesc f l ↔ a ∈ l := by
  induction l with
  | nil => simp [sortDesc]
  | cons x xs ih => simp [sortDesc, mem_insDesc, ih]

theorem pairwise_insDesc {α : Type} (f : α → Nat) (x : α) (l : List α)
    (h : l.Pairwise (fun a b => f b ≤ f a)) :
    (insDesc f x l).Pairwise (fun a b => f b ≤ f a) := by
  induction l with
  | nil => simp [insDesc]
  | cons y ys ih =>
    rw [List.pairwise_cons] at h
    obtain ⟨hy, hys⟩ := h
    simp only [insDesc]
    split
    · rename_i hle
      rw [List.pairwise_cons]
      refine ⟨?_, List.pairwise_cons.mpr ⟨hy, hys⟩⟩
      intro b hb
      rcases List.mem_cons.mp hb with rfl | hb
      · exact hle
      · exact le_trans (hy b hb) hle
    · rename_i hgt
      push_neg at hgt
      rw [List.pairwise_cons]
      refine ⟨?_, ih hys⟩
      intro b hb
      rcases (mem_insDesc f x b ys).mp hb with rfl | hb
      · exact le_of_lt hgt
      · exact hy b hb

theorem pairwise_sortDesc {α : Type} (f : α → Nat) (l : List α) :
    (sortDesc f l).Pairwise (fun a b => f b ≤ f a) := by
  induction l with
  | nil => simp [sortDesc]
  | cons x xs ih => exact pairwise_insDesc f x _ ih

/-! ## Lemmas: upsert and the summary folds -/

theorem listMapSelf {α : Type} (f : α → α) (l : List α) (h : ∀ a ∈ l, f a = a) :
    l.map f = l := by
  induction l with
  | nil => rfl
  | cons a l ih =>
    simp only [List.map_cons, h a (by simp)]
    rw [ih (fun b hb => h b (by simp [hb]))]

theorem upsert_mem_triple (row : SummaryRow) (t : List SummaryRow) :
    ∃ s ∈ upsert row t,
      rowMatches row.userId row.ptype row.key s = true ∧ s.agg = row.agg := by
  simp only [upsert]
  split
  · rename_i hany
    obtain ⟨s, hs, hmatch⟩ := List.any_eq_true.mp hany
    refine ⟨{ s with agg := row.agg }, List.mem_map.mpr ⟨s, hs, by rw [if_pos hmatch]⟩, ?_, rfl⟩
    simpa [rowMatches] using hmatch
  · exact ⟨row, by simp, by simp [rowMatches], rfl⟩

theorem upsert_match_agg (row : SummaryRow) (t : List SummaryRow) :
    ∀ s ∈ upsert row t,
      rowMatches row.userId row.ptype row.key s = true → s.agg = row.agg := by
  simp only [upsert]
  split
  · rename_i hany
    intro s hs hm
    obtain ⟨s0, hs0, heq⟩ := List.mem_map.mp hs
    by_cases h0 : rowMatches row.userId row.ptype row.key s0 = true
    · rw [if_pos h0] at heq
      simp [← heq]
    · rw [if_neg h0] at heq
      exact absurd (heq ▸ hm) h0
  · rename_i hany
    intro s hs hm
    rcases List.mem_append.mp hs with h | h
    · exact absurd (List.any_eq_true.mpr ⟨s, h, hm⟩) hany
    · simp only [List.mem_singleton] at h
      rw [h]

theorem upsert_other_exists (u0 : String) (pt : PeriodType) (k : PKey)
    (row : SummaryRow) (t : List SummaryRow)
    (h : ∃ s ∈ t, rowMatches u0 pt k s = true) :
    ∃ s ∈ upsert row t, rowMatches u0 pt k s = true := by
  obtain ⟨s, hs, hm⟩ := h
  simp only [upsert]
  split
  · by_cases h0 : rowMatches row.userId row.ptype row.key s = true
    · refine ⟨{ s with agg := row.agg },
        List.mem_map.mpr ⟨s, hs, by rw [if_pos h0]⟩, ?_⟩
      simpa [rowMatches] using hm
    · exact ⟨s, List.mem_map.mpr ⟨s, hs, by rw [if_neg h0]⟩, hm⟩
  · exact ⟨s, List.mem_append_left _ hs, hm⟩

theorem upsert_other_forall (u0 : String) (pt : PeriodType) (k : PKey) (A : Agg)
    (row : SummaryRow) (t : List SummaryRow)
    (hne : ¬rowMatches u0 pt k row = true)
    (h : ∀ s ∈ t, rowMatches u0 pt k s = true → s.agg = A) :
    ∀ s ∈ upsert row t, rowMatches u0 pt k s = true → s.agg = A := by
  simp only [upsert]
  split
  · intro s hs hm
    obtain ⟨s0, hs0, heq⟩ := List.mem_map.mp hs
    by_cases h0 : rowMatches row.userId row.ptype row.key s0 = true
    · exfalso
      rw [if_pos h0] at heq
      have hs0m : rowMatches u0 pt k s0 = true := by
        rw [← heq] at hm
        simpa [rowMatches] using hm
      apply hne
      simp only [rowMatches, Bool.and_eq_true, beq_iff_eq] at h0 hs0m ⊢
      exact ⟨⟨by rw [← h0.1.1, hs0m.1.1], by rw [← h0.1.2, hs0m.1.2]⟩,
             by rw [← h0.2, hs0m.2]⟩
    · rw [if_neg h0] at heq
      exact h s (heq ▸ hs0) hm
  · intro s hs hm
    rcases List.mem_append.mp hs with hss | hss
    · exact h s hss hm
    · simp only [List.mem_singleton] at hss
      exact absurd (hss ▸ hm) hne

theorem upsert_self (row : SummaryRow) (t : List SummaryRow)
    (hex : ∃ s ∈ t, rowMatches row.userId row.ptype row.key s = true)
    (hagg : ∀ s ∈ t, rowMatches row.userId row.ptype row.key s = true → s.agg = row.agg) :
    upsert row t = t := by
  obtain ⟨s0, hs0, hm0⟩ := hex
  simp only [upsert]
  rw [if_pos (List.any_eq_true.mpr ⟨s0, hs0, hm0⟩)]
  apply listMapSelf
  intro s hs
  by_cases h0 : rowMatches row.userId row.ptype row.key s = true
  · rw [if_pos h0]
    have : row.agg = s.agg := (hagg s hs h0).symm
    rw [this]
  · rw [if_neg h0]

theorem upsert_mem_src (row : SummaryRow) (t : List SummaryRow) :
    ∀ s ∈ upsert row t,
      (∃ s0 ∈ t, s0.userId = s.userId ∧ s0.ptype = s.ptype ∧ s0.key = s.key)
        ∨ (row.userId = s.userId ∧ row.ptype = s.ptype ∧ row.key = s.key) := by
  simp only [upsert]
  split
  · intro s hs
    obtain ⟨s0, hs0, heq⟩ := List.mem_map.mp hs
    left
    refine ⟨s0, hs0, ?_⟩
    by_cases h0 : rowMatches row.userId row.ptype row.key s0 = true
    · rw [if_pos h0] at heq
      simp [← heq]
    · rw [if_neg h0] at heq
      simp [heq]
  · intro s hs
    rcases List.mem_append.mp hs with h | h
    · exact Or.inl ⟨s, h, rfl, rfl, rfl⟩
    · simp only [List.mem_singleton] at h
      exact Or.inr (by simp [h])

theorem foldUpsert_exists {β : Type} (g : β → SummaryRow) (xs : List β)
    (t : List SummaryRow) (u0 : String) (pt : PeriodType) (k : PKey)
    (h : ∃ s ∈ t, rowMatches u0 pt k s = true) :
    ∃ s ∈ xs.foldl (fun t b => upsert (g b) t) t, rowMatches u0 pt k s = true := by
  induction xs generalizing t with
  | nil => exact h
  | cons b bs ih => exact ih _ (upsert_other_exists u0 pt k (g b) t h)

theorem foldUpsert_mem_exists {β : Type} (g : β → SummaryRow) (xs : List β)
    (t : List SummaryRow) (x : β) (hx : x ∈ xs) :
    ∃ s ∈ xs.foldl (fun t b => upsert (g b) t) t,
      rowMatches (g x).userId (g x).ptype (g x).key s = true := by
  induction xs generalizing t with
  | nil => cases hx
  | cons b bs ih =>
    rw [List.foldl_cons]
    rcases List.mem_cons.mp hx with rfl | hx
    · apply foldUpsert_exists
      obtain ⟨s, hs, hm, _⟩ := upsert_mem_triple (g x) t
      exact ⟨s, hs, hm⟩
    · exact ih _ hx

theorem foldUpsert_agg_preserved {β : Type} (g : β → SummaryRow) (xs : List β)
    (t : List SummaryRow) (u0 : String) (pt : PeriodType) (k : PKey) (A : Agg)
    (hall : ∀ b ∈ xs, rowMatches u0 pt k (g b) = true → (g b).agg = A)
    (h : ∀ s ∈ t, rowMatches u0 pt k s = true → s.agg = A) :
    ∀ s ∈ xs.foldl (fun t b => upsert (g b) t) t,
      rowMatches u0 pt k s = true → s.agg = A := by
  induction xs generalizing t with
  | nil => exact h
  | cons b bs ih =>
    rw [List.foldl_cons]
    refine ih _ (fun b' hb' => hall b' (List.mem_cons_of_mem b hb')) ?_
    by_cases hb : rowMatches u0 pt k (g b) = true
    · have hA : (g b).agg = A := hall b (List.mem_cons_self b bs) hb
      intro s hs hm
      have hm' : rowMatches (g b).userId (g b).ptype (g b).key s = true := by
        simp only [rowMatches, Bool.and_eq_true, beq_iff_eq] at hb hm ⊢
        exact ⟨⟨by rw [hm.1.1, hb.1.1], by rw [hm.1.2, hb.1.2]⟩, by rw [hm.2, hb.2]⟩
      rw [upsert_match_agg (g b) t s hs hm', hA]
    · exact upsert_other_forall u0 pt k A (g b) t hb h

theorem foldUpsert_agg_of_mem {β : Type} (g : β → SummaryRow) (xs : List β)
    (t : List SummaryRow) (x : β) (hx : x ∈ xs)
    (H : ∀ a ∈ xs, ∀ b ∈ xs,
      (g a).userId = (g b).userId → (g a).ptype = (g b).ptype →
      (g a).key = (g b).key → g a = g b) :
    ∀ s ∈ xs.foldl (fun t b => upsert (g b) t) t,
      rowMatches (g x).userId (g x).ptype (g x).key s = true → s.agg = (g x).agg := by
  induction xs generalizing t with
  | nil => cases hx
  | cons b bs ih =>
    rw [List.foldl_cons]
    rcases List.mem_cons.mp hx with rfl | hx
    · refine foldUpsert_agg_preserved g bs (upsert (g x) t) _ _ _ _ ?_ ?_
      · intro b' hb' hmb'
        simp only [rowMatches, Bool.and_eq_true, beq_iff_eq] at hmb'
        have heq : g b' = g x :=
          H b' (List.mem_cons_of_mem _ hb') x (List.mem_cons_self x bs)
            hmb'.1.1 hmb'.1.2 hmb'.2
        rw [heq]
      · exact upsert_match_agg (g x) t
    · exact ih _ hx
        (fun a ha b' hb' =>
          H a (List.mem_cons_of_mem _ ha) b' (List.mem_cons_of_mem _ hb'))

theorem foldUpsert_id {β : Type} (g : β → SummaryRow) (xs : List β)
    (t : List SummaryRow) (h : ∀ x ∈ xs, upsert (g x) t = t) :
    xs.foldl (fun t b => upsert (g b) t) t = t := by
  induction xs with
  | nil => rfl
  | cons b bs ih =>
    rw [List.foldl_cons, h b (by simp)]
    exact ih (fun x hx => h x (by simp [hx]))

theorem foldUpsert_origin {β : Type} (g : β → SummaryRow) (xs : List β)
    (t : List SummaryRow) :
    ∀ s ∈ xs.foldl (fun t b => upsert (g b) t) t,
      (∃ s0 ∈ t, s0.userId = s.userId ∧ s0.ptype = s.ptype ∧ s0.key = s.key)
        ∨ ∃ x ∈ xs, (g x).userId = s.userId ∧ (g x).ptype = s.ptype ∧ (g x).key = s.key := by
  induction xs generalizing t with
  | nil => exact fun s hs => Or.inl ⟨s, hs, rfl, rfl, rfl⟩
  | cons b bs ih =>
    intro s hs
    rcases ih _ s hs with h | h
    · obtain ⟨s0, hs0, he⟩ := h
      rcases upsert_mem_src (g b) t s0 hs0 with h2 | h2
      · obtain ⟨s1, hs1, he1⟩ := h2
        exact Or.inl ⟨s1, hs1, he1.1.trans he.1, he1.2.1.trans he.2.1, he1.2.2.trans he.2.2⟩
      · exact Or.inr ⟨b, by simp, h2.1.trans he.1, h2.2.1.trans he.2.1, h2.2.2.trans he.2.2⟩
    · obtain ⟨x, hxs, he⟩ := h
      exact Or.inr ⟨x, by simp [hxs], he⟩

/-! ## Lemmas: the usage store -/

theorem insertGo_summaries (rs : List UsageRecord) (st : State) (n : Nat) :
    (insertGo st n rs).1.summaries = st.summaries := by
  induction rs generalizing st n with
  | nil => rfl
  | cons r rs ih =>
    simp only [insertGo]
    split
    · exact ih st n
    · exact ih _ _

theorem insertGo_records_append (rs : List UsageRecord) (st : State) (n : Nat) :
    ∃ l, (insertGo st n rs).1.records = st.records ++ l := by
  induction rs generalizing st n with
  | nil => exact ⟨[], by simp [insertGo]⟩
  | cons r rs ih =>
    simp only [insertGo]
    split
    · exact ih st n
    · obtain ⟨l, hl⟩ := ih { st with records := st.records ++ [⟨r, recordCost r⟩] } (n + 1)
      exact ⟨⟨r, recordCost r⟩ :: l, by simp [hl]⟩

theorem hasNaturalKey_append (recs l : List StoredRecord) (r : UsageRecord)
    (h : hasNaturalKey recs r = true) : hasNaturalKey (recs ++ l) r = true := by
  simp only [hasNaturalKey] at h ⊢
  simp [List.any_append, h]

theorem insertGo_hasKey (rs : List UsageRecord) (st : State) (n : Nat)
    (r : UsageRecord) (hr : r ∈ rs) :
    hasNaturalKey (insertGo st n rs).1.records r = true := by
  induction rs generalizing st n with
  | nil => cases hr
  | cons r0 rs ih =>
    simp only [insertGo]
    rcases List.mem_cons.mp hr with rfl | hr
    · split
      · rename_i h0
        obtain ⟨l, hl⟩ := insertGo_records_append rs st n
        rw [hl]
        exact hasNaturalKey_append _ _ _ h0
      · obtain ⟨l, hl⟩ :=
          insertGo_records_append rs { st with records := st.records ++ [⟨r, recordCost r⟩] } (n + 1)
        rw [hl]
        apply hasNaturalKey_append
        simp [hasNaturalKey]
    · split
      · exact ih st n hr
      · exact ih _ _ hr

theorem insertGo_skip_all (rs : List UsageRecord) (st : State) (n : Nat)
    (h : ∀ r ∈ rs, hasNaturalKey st.records r = true) :
    insertGo st n rs = (st, n) := by
  induction rs generalizing n with
  | nil => rfl
  | cons r rs ih =>
    simp only [insertGo, if_pos (h r (List.mem_cons_self r rs))]
    exact ih n (fun r' hr' => h r' (List.mem_cons_of_mem _ hr'))

theorem insertGo_count (rs : List UsageRecord) (st : State) (n : Nat) :
    (insertGo st n rs).1.records.length + n
      = st.records.length + (insertGo st n rs).2 := by
  induction rs generalizing st n with
  | nil => simp [insertGo, Nat.add_comm]
  | cons r rs ih =>
    simp only [insertGo]
    split
    · exact ih st n
    · have h := ih { st with records := st.records ++ [⟨r, recordCost r⟩] } (n + 1)
      simp only [List.length_append, List.length_singleton] at h
      omega

theorem insertGo_mem (rs : List UsageRecord) (st : State) (n : Nat)
    (s : StoredRecord) (hs : s ∈ st.records) : s ∈ (insertGo st n rs).1.records := by
  obtain ⟨l, hl⟩ := insertGo_records_append rs st n
  rw [hl]
  exact List.mem_append_left _ hs

/-! ## Lemmas: the summary store -/

theorem updateSummaries_records (u : String) (bd : Nat) (batch : List UsageRecord)
    (st : State) : (UpdateSummaries u bd batch st).records = st.records := by
  simp only [UpdateSummaries]
  split <;> rfl

theorem addAssoc_keysDistinct (acc : List (PKey × Timestamp × Timestamp))
    (c : PKey × Timestamp × Timestamp)
    (h : acc.Pairwise (fun a b => a.1 ≠ b.1)) :
    (addAssoc acc c).Pairwise (fun a b => a.1 ≠ b.1) := by
  simp only [addAssoc]
  split
  · rw [List.pairwise_map]
    have hf : ∀ a : PKey × Timestamp × Timestamp,
        ((if a.1 == c.1 then c else a) : PKey × Timestamp × Timestamp).1 = a.1 := by
      intro a
      split
      · rename_i ha
        exact (beq_iff_eq.mp ha).symm
      · rfl
    refine h.imp ?_
    intro a b hab
    rw [hf a, hf b]
    exact hab
  · rename_i hany
    rw [List.pairwise_append]
    refine ⟨h, List.pairwise_singleton _ _, ?_⟩
    intro a ha c' hc'
    simp only [List.mem_singleton] at hc'
    subst hc'
    intro heq
    exact hany (List.any_eq_true.mpr ⟨a, ha, by simp [heq]⟩)

theorem foldl_addAssoc_keysDistinct (l : List (PKey × Timestamp × Timestamp))
    (acc : List (PKey × Timestamp × Timestamp))
    (h : acc.Pairwise (fun a b => a.1 ≠ b.1)) :
    (l.foldl addAssoc acc).Pairwise (fun a b => a.1 ≠ b.1) := by
  induction l generalizing acc with
  | nil => exact h
  | cons c cs ih => exact ih _ (addAssoc_keysDistinct acc c h)

theorem affectedCycles_inj (bd : Nat) (batch : List UsageRecord)
    (a b : PKey × Timestamp × Timestamp)
    (ha : a ∈ affectedCycles bd batch) (hb : b ∈ affectedCycles bd batch)
    (hk : a.1 = b.1) : a = b := by
  have hdist : (affectedCycles bd batch).Pairwise (fun a b => a.1 ≠ b.1) := by
    simp only [affectedCycles]
    split
    · exact foldl_addAssoc_keysDistinct _ [] (List.Pairwise.nil)
    · exact List.Pairwise.nil
  by_contra hne
  have hsymm : Symmetric (fun a b : PKey × Timestamp × Timestamp => a.1 ≠ b.1) :=
    fun a b h e => h e.symm
  exact hdist.forall hsymm ha hb hne hk

theorem summariesAfterUpdate_eq (u : String) (bd : Nat) (batch : List UsageRecord)
    (recs : List StoredRecord) (t0 : List SummaryRow) :
    summariesAfterUpdate u bd batch recs t0 =
      (affectedCycles bd batch).foldl (fun t c => upsert (cycleRowFor u c recs) t)
        ((dedupKeys (batch.map fun r => (r.ts.date.y, r.ts.date.m))).foldl
          (fun t p => upsert (monthRowFor u p.1 p.2 recs) t)
          ((dedupKeys (batch.map fun r => r.ts.date)).foldl
            (fun t d => upsert (dayRowFor u d recs) t) t0)) := by
  simp only [summariesAfterUpdate]

theorem threeFoldIdem {α β γ : Type}
    (gA : α → SummaryRow) (gB : β → SummaryRow) (gC : γ → SummaryRow)
    (A : List α) (B : List β) (C : List γ) (t0 : List SummaryRow)
    (HA : ∀ a ∈ A, ∀ a2 ∈ A, (gA a).userId = (gA a2).userId →
      (gA a).ptype = (gA a2).ptype → (gA a).key = (gA a2).key → gA a = gA a2)
    (HB : ∀ b ∈ B, ∀ b2 ∈ B, (gB b).userId = (gB b2).userId →
      (gB b).ptype = (gB b2).ptype → (gB b).key = (gB b2).key → gB b = gB b2)
    (HC : ∀ c ∈ C, ∀ c2 ∈ C, (gC c).userId = (gC c2).userId →
      (gC c).ptype = (gC c2).ptype → (gC c).key = (gC c2).key → gC c = gC c2)
    (HAB : ∀ a ∈ A, ∀ b ∈ B,
      ¬rowMatches (gA a).userId (gA a).ptype (gA a).key (gB b) = true)
    (HAC : ∀ a ∈ A, ∀ c ∈ C,
      ¬rowMatches (gA a).userId (gA a).ptype (gA a).key (gC c) = true)
    (HBC : ∀ b ∈ B, ∀ c ∈ C,
      ¬rowMatches (gB b).userId (gB b).ptype (gB b).key (gC c) = true) :
    C.foldl (fun t c => upsert (gC c) t)
      (B.foldl (fun t b => upsert (gB b) t)
        (A.foldl (fun t a => upsert (gA a) t)
          (C.foldl (fun t c => upsert (gC c) t)
            (B.foldl (fun t b => upsert (gB b) t)
              (A.foldl (fun t a => upsert (gA a) t) t0)))))
      = C.foldl (fun t c => upsert (gC c) t)
          (B.foldl (fun t b => upsert (gB b) t)
            (A.foldl (fun t a => upsert (gA a) t) t0)) := by
  set t1 := A.foldl (fun t a => upsert (gA a) t) t0 with ht1
  set t2 := B.foldl (fun t b => upsert (gB b) t) t1 with ht2
  set t3 := C.foldl (fun t c => upsert (gC c) t) t2 with ht3
  have hAex : ∀ a ∈ A, ∃ s ∈ t3, rowMatches (gA a).userId (gA a).ptype (gA a).key s = true := by
    intro a ha
    exact foldUpsert_exists gC C t2 _ _ _
      (foldUpsert_exists gB B t1 _ _ _ (foldUpsert_mem_exists gA A t0 a ha))
  have hAagg : ∀ a ∈ A, ∀ s ∈ t3,
      rowMatches (gA a).userId (gA a).ptype (gA a).key s = true → s.agg = (gA a).agg := by
    intro a ha
    exact foldUpsert_agg_preserved gC C t2 _ _ _ _
      (fun c hc hm => absurd hm (HAC a ha c hc))
      (foldUpsert_agg_preserved gB B t1 _ _ _ _
        (fun b hb hm => absurd hm (HAB a ha b hb))
        (foldUpsert_agg_of_mem gA A t0 a ha HA))
  have hBex : ∀ b ∈ B, ∃ s ∈ t3, rowMatches (gB b).userId (gB b).ptype (gB b).key s = true := by
    intro b hb
    exact foldUpsert_exists gC C t2 _ _ _ (foldUpsert_mem_exists gB B t1 b hb)
  have hBagg : ∀ b ∈ B, ∀ s ∈ t3,
      rowMatches (gB b).userId (gB b).ptype (gB b).key s = true → s.agg = (gB b).agg := by
    intro b hb
    exact foldUpsert_agg_preserved gC C t2 _ _ _ _
      (fun c hc hm => absurd hm (HBC b hb c hc))
      (foldUpsert_agg_of_mem gB B t1 b hb HB)
  have hCex : ∀ c ∈ C, ∃ s ∈ t3, rowMatches (gC c).userId (gC c).ptype (gC c).key s = true :=
    fun c hc => foldUpsert_mem_exists gC C t2 c hc
  have hCagg : ∀ c ∈ C, ∀ s ∈ t3,
      rowMatches (gC c).userId (gC c).ptype (gC c).key s = true → s.agg = (gC c).agg :=
    fun c hc => foldUpsert_agg_of_mem gC C t2 c hc HC
  have hfA : A.foldl (fun t a => upsert (gA a) t) t3 = t3 :=
    foldUpsert_id gA A t3 (fun a ha => upsert_self (gA a) t3 (hAex a ha) (hAagg a ha))
  have hfB : B.foldl (fun t b => upsert (gB b) t) t3 = t3 :=
    foldUpsert_id gB B t3 (fun b hb => upsert_self (gB b) t3 (hBex b hb) (hBagg b hb))
  have hfC : C.foldl (fun t c => upsert (gC c) t) t3 = t3 :=
    foldUpsert_id gC C t3 (fun c hc => upsert_self (gC c) t3 (hCex c hc) (hCagg c hc))
  rw [hfA, hfB, hfC]

/-- Updating twice is harmless: `UpdateSummaries` is idempotent — running the same batch twice over the
same stored records upserts the same re-summed rows, leaving the summary
table unchanged. -/
theorem updateSummaries_idem (u : String) (bd : Nat) (batch : List UsageRecord)
    (st : State) :
    UpdateSummaries u bd batch (UpdateSummaries u bd batch st)
      = UpdateSummaries u bd batch st := by
  by_cases hb : batch = []
  · simp [UpdateSummaries, hb]
  · simp only [UpdateSummaries, if_neg hb]
    show State.mk _ _ = State.mk _ _
    rw [State.mk.injEq]
    refine ⟨rfl, ?_⟩
    rw [summariesAfterUpdate_eq, summariesAfterUpdate_eq]
    apply threeFoldIdem
    · intro a _ b _ _ _ hk
      have : a = b := by simpa [dayRowFor] using hk
      rw [this]
    · intro a _ b _ _ _ hk
      have h1 : a.1 = b.1 ∧ a.2 = b.2 := by simpa [monthRowFor] using hk
      have : a = b := Prod.ext h1.1 h1.2
      rw [this]
    · intro a ha b hb2 _ _ hk
      have h1 : a.1 = b.1 := by simpa [cycleRowFor] using hk
      have : a = b := affectedCycles_inj bd batch a b ha hb2 h1
      rw [this]
    · intro a _ b _ hm
      simp [rowMatches, dayRowFor, monthRowFor] at hm
    · intro a _ c _ hm
      simp [rowMatches, dayRowFor, cycleRowFor] at hm
    · intro b _ c _ hm
      simp [rowMatches, monthRowFor, cycleRowFor] at hm

/-! ## Lemmas: debouncer -/

theorem debSet_self (p : DebMap) (u : String) (v : Option PendingUpdate) :
    (p.set u v) u = v := by simp [DebMap.set]

theorem scheduleAll_pending (u : String) (calls : List (Nat × List UsageRecord))
    (p : DebMap) (pu : PendingUpdate) (hp : p u = some pu) :
    (scheduleAll u calls p) u
      = some ⟨pu.generation + calls.length,
              (calls.map Prod.fst).getLastD pu.billingDay,
              pu.records ++ (calls.map Prod.snd).flatten⟩ := by
  induction calls generalizing p pu with
  | nil => simpa [scheduleAll] using hp
  | cons c cs ih =>
    simp only [scheduleAll, List.foldl_cons]
    have h1 : (Schedule u c.1 c.2 p).1 u = some ⟨pu.generation + 1, c.1, pu.records ++ c.2⟩ := by
      simp [Schedule, hp, DebMap.set]
    have h2 := ih (Schedule u c.1 c.2 p).1 _ h1
    rw [show (cs.foldl (fun p c => (Schedule u c.1 c.2 p).1) (Schedule u c.1 c.2 p).1)
          = scheduleAll u cs (Schedule u c.1 c.2 p).1 from rfl, h2]
    simp only [Option.some.injEq, PendingUpdate.mk.injEq, List.map_cons,
      List.getLastD_cons, List.length_cons, List.flatten_cons, List.append_assoc,
      and_true, true_and]
    omega

theorem scheduleAll_start (u : String) (calls : List (Nat × List UsageRecord))
    (p : DebMap) (hp : p u = none) (hne : calls ≠ []) :
    (scheduleAll u calls p) u
      = some ⟨calls.length, (calls.map Prod.fst).getLastD 0, (calls.map Prod.snd).flatten⟩ := by
  cases calls with
  | nil => exact absurd rfl hne
  | cons c cs =>
    simp only [scheduleAll, List.foldl_cons]
    have h1 : (Schedule u c.1 c.2 p).1 u = some ⟨1, c.1, c.2⟩ := by
      simp [Schedule, hp, DebMap.set]
    have h2 := scheduleAll_pending u cs _ _ h1
    rw [show (cs.foldl (fun p c => (Schedule u c.1 c.2 p).1) (Schedule u c.1 c.2 p).1)
          = scheduleAll u cs (Schedule u c.1 c.2 p).1 from rfl, h2]
    simp only [Option.some.injEq, PendingUpdate.mk.injEq, List.map_cons,
      List.getLastD_cons, List.length_cons, List.flatten_cons, and_true, true_and]
    omega

theorem getLastD_map_fst (calls : List (Nat × List UsageRecord))
    (lastCall : Nat × List UsageRecord) (h : calls.getLast? = some lastCall) (d : Nat) :
    (calls.map Prod.fst).getLastD d = lastCall.1 := by
  induction calls generalizing d with
  | nil => simp at h
  | cons c cs ih =>
    cases cs with
    | nil =>
      simp only [List.getLast?_singleton, Option.some.injEq] at h
      simp [← h]
    | cons c2 cs2 =>
      rw [List.getLast?_cons_cons] at h
      simp only [List.map_cons, List.getLastD_cons]
      have h4 := ih h c.1
      simp only [List.map_cons, List.getLastD_cons] at h4
      exact h4

theorem flushDeb_hit (u : String) (p : DebMap) (pu : PendingUpdate)
    (hp : p u = some pu) :
    flushDeb u pu.generation p = (p.set u none, some (pu.billingDay, pu.records)) := by
  simp [flushDeb, hp]

theorem flushDeb_stale (u : String) (g : Nat) (p : DebMap) (pu : PendingUpdate)
    (hp : p u = some pu) (hg : pu.generation ≠ g) :
    flushDeb u g p = (p, none) := by
  simp [flushDeb, hp, hg]

theorem flushDeb_gone (u : String) (g : Nat) (p : DebMap) (hp : p u = none) :
    flushDeb u g p = (p, none) := by
  simp [flushDeb, hp]

theorem fireAll_gone (u : String) (gens : List Nat) (p : DebMap) (hp : p u = none) :
    fireAll u gens p = (p, []) := by
  induction gens with
  | nil => rfl
  | cons g gs ih => simp [fireAll, flushDeb_gone u g p hp, ih]

theorem fireAll_main (u : String) (gens : List Nat) (p : DebMap) (pu : PendingUpdate)
    (hp : p u = some pu) (hc : gens.count pu.generation = 1) :
    (fireAll u gens p).2 = [(pu.billingDay, pu.records)]
      ∧ (fireAll u gens p).1 u = none := by
  induction gens generalizing p with
  | nil => simp at hc
  | cons g gs ih =>
    by_cases hg : g = pu.generation
    · have hc2 : gs.count pu.generation = 0 := by
        rw [hg, List.count_cons_self] at hc
        omega
      have hflush : flushDeb u g p = (p.set u none, some (pu.billingDay, pu.records)) := by
        rw [hg]
        exact flushDeb_hit u p pu hp
      simp only [fireAll, hflush]
      rw [fireAll_gone u gs _ (debSet_self p u none)]
      refine ⟨rfl, debSet_self p u none⟩
    · have hs := flushDeb_stale u g p pu hp (by omega)
      have hc2 : gs.count pu.generation = 1 := by
        rwa [List.count_cons_of_ne (by omega)] at hc
      have h3 := ih p hp hc2
      simp only [fireAll, hs]
      simpa using h3

/-- Summary rows are only ever created for periods keyed by some record of
the update batch: any row in the updated table either shares its
(user, type, key) triple with a pre-existing row or derives its key from a
batch record (day or month key) or from the batch's affected cycles. -/
theorem updateSummaries_key_origin (u : String) (bd : Nat)
    (batch : List UsageRecord) (st : State) :
    ∀ s ∈ (UpdateSummaries u bd batch st).summaries,
      (∃ s0 ∈ st.summaries, s0.userId = s.userId ∧ s0.ptype = s.ptype ∧ s0.key = s.key)
      ∨ (s.userId = u
         ∧ ((∃ r ∈ batch, s.ptype = PeriodType.day ∧ s.key = PKey.day r.ts.date)
            ∨ (∃ r ∈ batch, s.ptype = PeriodType.month
                ∧ s.key = PKey.month r.ts.date.y r.ts.date.m)
            ∨ (∃ c ∈ affectedCycles bd batch,
                s.ptype = PeriodType.cycle ∧ s.key = c.1))) := by
  by_cases hb : batch = []
  · intro s hs
    simp only [UpdateSummaries, if_pos hb] at hs
    exact Or.inl ⟨s, hs, rfl, rfl, rfl⟩
  · simp only [UpdateSummaries, if_neg hb, summariesAfterUpdate_eq]
    intro s hs
    rcases foldUpsert_origin (fun c => cycleRowFor u c st.records) _ _ s hs with h | h
    · obtain ⟨s0, hs0, e0⟩ := h
      rcases foldUpsert_origin (fun p : Nat × Nat => monthRowFor u p.1 p.2 st.records)
          _ _ s0 hs0 with h2 | h2
      · obtain ⟨s1, hs1, e1⟩ := h2
        rcases foldUpsert_origin (fun d => dayRowFor u d st.records) _ _ s1 hs1 with h3 | h3
        · obtain ⟨s2, hs2, e2⟩ := h3
          exact Or.inl ⟨s2, hs2,
            (e2.1.trans e1.1).trans e0.1,
            (e2.2.1.trans e1.2.1).trans e0.2.1,
            (e2.2.2.trans e1.2.2).trans e0.2.2⟩
        · obtain ⟨d, hd, e3⟩ := h3
          simp only [dayRowFor] at e3
          simp only [dedupKeys] at hd
          obtain ⟨r, hrr, hre⟩ := List.mem_map.mp (List.mem_dedup.mp hd)
          refine Or.inr ⟨((e3.1.trans e1.1).trans e0.1).symm, Or.inl ⟨r, hrr, ?_, ?_⟩⟩
          · exact ((e3.2.1.trans e1.2.1).trans e0.2.1).symm
          · rw [← ((e3.2.2.trans e1.2.2).trans e0.2.2), hre]
      · obtain ⟨p, hp, e3⟩ := h2
        simp only [monthRowFor] at e3
        simp only [dedupKeys] at hp
        obtain ⟨r, hrr, hre⟩ := List.mem_map.mp (List.mem_dedup.mp hp)
        refine Or.inr ⟨(e3.1.trans e0.1).symm, Or.inr (Or.inl ⟨r, hrr, ?_, ?_⟩)⟩
        · exact (e3.2.1.trans e0.2.1).symm
        · rw [← (e3.2.2.trans e0.2.2), ← hre]
    · obtain ⟨c, hc, e3⟩ := h
      simp only [cycleRowFor] at e3
      exact Or.inr ⟨e3.1.symm, Or.inr (Or.inr ⟨c, hc, e3.2.1.symm, e3.2.2.symm⟩)⟩

/-! ## Claim theorems -/

/-- C6: for a burst of N ≥ 1 `Schedule` calls for one user that all occur
before any of their delayed flushes fires, the pending record holds
generation N, the anchor of the last call, and the concatenation of all N
batches; firing the armed timers (tagged generations in any order in which
the tag N occurs exactly once, as it does for the timers tagged 1..N) hands
exactly one payload to `UpdateSummaries` — the concatenated batch with the
last anchor — and clears the pending record; a flush whose pending record is
gone, or whose tagged generation does not match, performs no update and
changes nothing. -/
theorem debounce_coalesces (u : String) (calls : List (Nat × List UsageRecord))
    (p0 : DebMap) (lastCall : Nat × List UsageRecord) (gens : List Nat)
    (hp0 : p0 u = none) (hlast : calls.getLast? = some lastCall)
    (hgens : gens.count calls.length = 1) :
    (scheduleAll u calls p0) u
        = some ⟨calls.length, lastCall.1, (calls.map Prod.snd).flatten⟩
    ∧ (fireAll u gens (scheduleAll u calls p0)).2
        = [(lastCall.1, (calls.map Prod.snd).flatten)]
    ∧ (fireAll u gens (scheduleAll u calls p0)).1 u = none
    ∧ (∀ (p : DebMap) (g : Nat), p u = none → flushDeb u g p = (p, none))
    ∧ (∀ (p : DebMap) (pu : PendingUpdate) (g : Nat),
        p u = some pu → pu.generation ≠ g → flushDeb u g p = (p, none)) := by
  have hne : calls ≠ [] := by
    intro h
    rw [h] at hlast
    simp at hlast
  have hpend := scheduleAll_start u calls p0 hp0 hne
  rw [getLastD_map_fst calls lastCall hlast 0] at hpend
  have hmain := fireAll_main u gens _
    ⟨calls.length, lastCall.1, (calls.map Prod.snd).flatten⟩ hpend hgens
  exact ⟨hpend, hmain.1, hmain.2,
    fun p g hp => flushDeb_gone u g p hp,
    fun p pu g hp hg => flushDeb_stale u g p pu hp hg⟩

/-- Witness for C6: two schedule calls for one user, then both timers fire in
order; the result is exactly one update carrying both batches and the second
call's anchor. -/
theorem debounce_coalesces_witness :
    (scheduleAll "u" [(5, [sampleRec]), (7, [c9Record])] (fun _ => none)) "u"
        = some ⟨2, 7, ([((5 : Nat), [sampleRec]), (7, [c9Record])].map Prod.snd).flatten⟩
    ∧ (fireAll "u" [1, 2]
          (scheduleAll "u" [(5, [sampleRec]), (7, [c9Record])] (fun _ => none))).2
        = [(7, ([((5 : Nat), [sampleRec]), (7, [c9Record])].map Prod.snd).flatten)] := by
  have h := debounce_coalesces "u" [(5, [sampleRec]), (7, [c9Record])] (fun _ => none)
    (7, [c9Record]) [1, 2] rfl (by decide) (by decide)
  exact ⟨h.1, h.2.1⟩

/-- C8: `InsertUsageRecords` is idempotent on the natural key: records whose
natural key already exists are silently skipped (existing rows are kept
untouched and the batch continues, not an error), the returned count equals
exactly the number of newly appended rows, and re-inserting the identical
batch into the state obtained after the subsequent summary update returns
insertedCount = 0 and leaves every summary row (and the whole state)
unchanged after its own subsequent summary update. -/
theorem insert_idempotent (u : String) (bd : Nat) (batch : List UsageRecord)
    (st : State) :
    (InsertUsageRecords batch st).1.records.length
        = st.records.length + (InsertUsageRecords batch st).2
    ∧ (InsertUsageRecords batch st).1.summaries = st.summaries
    ∧ (∀ s ∈ st.records, s ∈ (InsertUsageRecords batch st).1.records)
    ∧ InsertUsageRecords batch
        (UpdateSummaries u bd batch (InsertUsageRecords batch st).1)
        = (UpdateSummaries u bd batch (InsertUsageRecords batch st).1, 0)
    ∧ UpdateSummaries u bd batch
        (UpdateSummaries u bd batch (InsertUsageRecords batch st).1)
        = UpdateSummaries u bd batch (InsertUsageRecords batch st).1 := by
  refine ⟨?_, insertGo_summaries batch st 0, fun s hs => insertGo_mem batch st 0 s hs,
    ?_, updateSummaries_idem u bd batch (InsertUsageRecords batch st).1⟩
  · have h := insertGo_count batch st 0
    simpa [InsertUsageRecords] using h
  · apply insertGo_skip_all
    intro r hr
    rw [updateSummaries_records]
    exact insertGo_hasKey batch st 0 r hr

/-- C1 evaluation at the failing input: after faithfully syncing the batch
[c1Rec2023] and then [c1Rec2024] under anchor 1, the summary table holds a
single cycle row whose stored period is 2023-01-01 .. 2023-01-31 23:59:59 but
whose aggregates are those of the January 2024 cycle (input tokens 20): the
year-less cycle key "Jan 1 – Jan 31" collides across years and the upsert
keeps the old period bounds while replacing the aggregates, so the stored
row for the closed 2023 period no longer equals the sum of the user's
records in [period_start, period_end], which is input tokens 10. -/
theorem cycle_summary_collision_eval :
    (c1Final.summaries.filter (fun s => s.ptype == PeriodType.cycle)).map
        (fun s => (s.key, s.periodStart, s.periodEnd, s.agg.input))
      = [(PKey.cycle 1 1 1 31, midnight ⟨2023, 1, 1⟩, ⟨⟨2023, 1, 31⟩, 86399⟩, 20)]
    ∧ (sumRecords (recsInRange "u" (midnight ⟨2023, 1, 1⟩) ⟨⟨2023, 1, 31⟩, 86399⟩
          c1Final.records)).input = 10 := by
  exact ⟨by decide, by decide⟩

/-- C2 counterexample: `sampleRec` is dated 2024-05-15; taking that date as
today, the currently open day, the faithful ingestion step materializes a
`usage_summary` row keyed by the open day — refuting "the open period is
never materialized as a usage_summary row by any operation". -/
theorem open_period_materialized_counterexample :
    ((UpdateSummaries "u" 0 [sampleRec]
        (InsertUsageRecords [sampleRec] State.empty).1).summaries).any
      (rowMatches "u" PeriodType.day (PKey.day ⟨2024, 5, 15⟩)) = true := by
  decide

/-- C2 (amended): `UpdateSummaries` materializes a summary row for every
period touched by the batch — the day and month of every batch record and
every affected cycle — including the currently open one (a record dated
today yields a stored day row keyed today); the query paths, however, never
read the open period's stored row: the persisted part of each of the three
queries excludes the open period's key, and each query computes the open
period live from raw records. -/
theorem open_period_handling (u : String) (bd : Nat) (batch : List UsageRecord)
    (st : State) (now : Date) (r : UsageRecord) (hr : r ∈ batch)
    (hdate : r.ts.date = now) :
    (∀ r2 ∈ batch, ∃ s ∈ (UpdateSummaries u bd batch st).summaries,
        s.userId = u ∧ s.ptype = PeriodType.day ∧ s.key = PKey.day r2.ts.date)
    ∧ (∀ r2 ∈ batch, ∃ s ∈ (UpdateSummaries u bd batch st).summaries,
        s.userId = u ∧ s.ptype = PeriodType.month
          ∧ s.key = PKey.month r2.ts.date.y r2.ts.date.m)
    ∧ (∀ c ∈ affectedCycles bd batch, ∃ s ∈ (UpdateSummaries u bd batch st).summaries,
        s.userId = u ∧ s.ptype = PeriodType.cycle ∧ s.key = c.1)
    ∧ (∃ s ∈ (UpdateSummaries u bd batch st).summaries,
        s.userId = u ∧ s.ptype = PeriodType.day ∧ s.key = PKey.day now)
    ∧ (∀ e ∈ dayQuerySummaries u bd st now, e.period ≠ PKey.day now)
    ∧ (∀ e ∈ monthQuerySummaries u st now, e.period ≠ PKey.month now.y now.m)
    ∧ (∀ k, ∀ e ∈ cycleQuerySummaries u k st, e.period ≠ k)
    ∧ GetUsageByDay u bd st now
        = (if (sumRecords (recsOnDay u now st.records)).input > 0
              ∨ (sumRecords (recsOnDay u now st.records)).output > 0
           then [⟨PKey.day now, sumRecords (recsOnDay u now st.records)⟩] else [])
          ++ dayQuerySummaries u bd st now
    ∧ GetUsageByMonth u st now
        = (if (sumRecords (recsInMonth u now.y now.m st.records)).input > 0
              ∨ (sumRecords (recsInMonth u now.y now.m st.records)).output > 0
           then [⟨PKey.month now.y now.m,
                  sumRecords (recsInMonth u now.y now.m st.records)⟩] else [])
          ++ monthQuerySummaries u st now
    ∧ (∀ cs ce, GetBillingPeriod bd now = some (cs, ce) →
        GetUsageByBillingCycle u bd st now
          = (if (sumRecords (recsInRange u cs ce st.records)).input > 0
                ∨ (sumRecords (recsInRange u cs ce st.records)).output > 0
             then [⟨cycleKeyOf cs.date ce, sumRecords (recsInRange u cs ce st.records)⟩]
             else [])
            ++ cycleQuerySummaries u (cycleKeyOf cs.date ce) st) := by
  have hne : ¬batch = [] := by
    intro h
    rw [h] at hr
    simp at hr
  refine ⟨?_, ?_, ?_, ?_, ?_, ?_, ?_, ?_, ?_, ?_⟩
  · intro r2 hr2
    simp only [UpdateSummaries, if_neg hne, summariesAfterUpdate_eq]
    have hd : r2.ts.date ∈ dedupKeys (batch.map fun r => r.ts.date) := by
      simp only [dedupKeys, List.mem_dedup]
      exact List.mem_map_of_mem _ hr2
    obtain ⟨s, hs, hm⟩ :=
      foldUpsert_exists (fun c => cycleRowFor u c st.records) _ _ _ _ _
        (foldUpsert_exists (fun p : Nat × Nat => monthRowFor u p.1 p.2 st.records) _ _ _ _ _
          (foldUpsert_mem_exists (fun d => dayRowFor u d st.records) _ st.summaries
            r2.ts.date hd))
    refine ⟨s, hs, ?_⟩
    simp only [rowMatches, dayRowFor, Bool.and_eq_true, beq_iff_eq] at hm
    exact ⟨hm.1.1, hm.1.2, hm.2⟩
  · intro r2 hr2
    simp only [UpdateSummaries, if_neg hne, summariesAfterUpdate_eq]
    have hd : (r2.ts.date.y, r2.ts.date.m)
        ∈ dedupKeys (batch.map fun r => (r.ts.date.y, r.ts.date.m)) := by
      simp only [dedupKeys, List.mem_dedup]
      exact List.mem_map_of_mem _ hr2
    obtain ⟨s, hs, hm⟩ :=
      foldUpsert_exists (fun c => cycleRowFor u c st.records) _ _ _ _ _
        (foldUpsert_mem_exists (fun p : Nat × Nat => monthRowFor u p.1 p.2 st.records) _ _
          (r2.ts.date.y, r2.ts.date.m) hd)
    refine ⟨s, hs, ?_⟩
    simp only [rowMatches, monthRowFor, Bool.and_eq_true, beq_iff_eq] at hm
    exact ⟨hm.1.1, hm.1.2, hm.2⟩
  · intro c hc
    simp only [UpdateSummaries, if_neg hne, summariesAfterUpdate_eq]
    obtain ⟨s, hs, hm⟩ :=
      foldUpsert_mem_exists (fun c => cycleRowFor u c st.records) _ _ c hc
    refine ⟨s, hs, ?_⟩
    simp only [rowMatches, cycleRowFor, Bool.and_eq_true, beq_iff_eq] at hm
    exact ⟨hm.1.1, hm.1.2, hm.2⟩
  · simp only [UpdateSummaries, if_neg hne, summariesAfterUpdate_eq]
    have hd : now ∈ dedupKeys (batch.map fun r => r.ts.date) := by
      simp only [dedupKeys, List.mem_dedup]
      exact hdate ▸ List.mem_map_of_mem _ hr
    obtain ⟨s, hs, hm⟩ :=
      foldUpsert_exists (fun c => cycleRowFor u c st.records) _ _ _ _ _
        (foldUpsert_exists (fun p : Nat × Nat => monthRowFor u p.1 p.2 st.records) _ _ _ _ _
          (foldUpsert_mem_exists (fun d => dayRowFor u d st.records) _ st.summaries now hd))
    refine ⟨s, hs, ?_⟩
    simp only [rowMatches, dayRowFor, Bool.and_eq_true, beq_iff_eq] at hm
    exact ⟨hm.1.1, hm.1.2, hm.2⟩
  · intro e he
    simp only [dayQuerySummaries, List.mem_map] at he
    obtain ⟨s, hs, he⟩ := he
    simp only [dayQueryRows] at hs
    have hs4 := (List.mem_filter.mp ((mem_sortDesc _ s _).mp (List.mem_of_mem_take hs))).2
    simp only [Bool.and_eq_true, bne_iff_ne] at hs4
    rw [← he]
    exact hs4.1.2
  · intro e he
    simp only [monthQuerySummaries, List.mem_map] at he
    obtain ⟨s, hs, he⟩ := he
    simp only [monthQueryRows] at hs
    have hs4 := (List.mem_filter.mp ((mem_sortDesc _ s _).mp (List.mem_of_mem_take hs))).2
    simp only [Bool.and_eq_true, bne_iff_ne] at hs4
    rw [← he]
    exact hs4.2
  · intro k e he
    simp only [cycleQuerySummaries, List.mem_map] at he
    obtain ⟨s, hs, he⟩ := he
    simp only [cycleQueryRows] at hs
    have hs4 := (List.mem_filter.mp ((mem_sortDesc _ s _).mp hs)).2
    simp only [Bool.and_eq_true, bne_iff_ne] at hs4
    rw [← he]
    exact hs4.2
  · simp only [GetUsageByDay]
    split <;> rfl
  · simp only [GetUsageByMonth]
    split <;> rfl
  · intro cs ce hbp
    simp only [GetUsageByBillingCycle, hbp]
    split <;> rfl

/-- Witness for C2 at a concrete input: the open day 2024-05-15 gets a
stored summary row after the faithful ingestion step. -/
theorem open_period_handling_witness :
    ∃ s ∈ (UpdateSummaries "u" 0 [sampleRec]
        (InsertUsageRecords [sampleRec] State.empty).1).summaries,
      s.userId = "u" ∧ s.ptype = PeriodType.day ∧ s.key = PKey.day ⟨2024, 5, 15⟩ :=
  (open_period_handling "u" 0 [sampleRec]
    (InsertUsageRecords [sampleRec] State.empty).1 ⟨2024, 5, 15⟩ sampleRec
    (by simp) (by decide)).2.2.2.1

/-- C7 counterexample: for a concrete one-record batch over the empty store,
the handler pipeline contains no `Schedule` call at all (and performs the
summary update synchronously), so the spec-described insert-then-schedule
ingestion path does not hold of the code. -/
theorem apiSync_not_scheduled_counterexample :
    ¬specIngestionPath (apiSyncOps "u" 1 "c" [sampleRec] State.empty) := by
  intro h
  exact h.2.2 "u" 1 [sampleRec] (by decide)

/-- C7 (amended): for every inbound batch the handler calls get-or-create
client, then insert, then — synchronously inside the request handler and
only when insertedCount > 0 — `UpdateSummaries`, then the client last-sync
update; no debounced `Schedule` call occurs anywhere in the pipeline, and the
resulting state is the synchronous insert-then-update composite. -/
theorem apiSync_synchronous (u : String) (bd : Nat) (cid : String)
    (batch : List UsageRecord) (st : State) :
    apiSyncOps u bd cid batch st
        = [SyncOp.getOrCreateClient u cid, SyncOp.insertRecords batch]
          ++ (if 0 < (InsertUsageRecords batch st).2
              then [SyncOp.updateSummariesCall u bd batch] else [])
          ++ [SyncOp.updateClientLastSync cid]
    ∧ (∀ (u2 : String) (bd2 : Nat) (b2 : List UsageRecord),
        SyncOp.scheduleCall u2 bd2 b2 ∉ apiSyncOps u bd cid batch st)
    ∧ apiSyncState u bd batch st
        = (if 0 < (InsertUsageRecords batch st).2
           then UpdateSummaries u bd batch (InsertUsageRecords batch st).1
           else (InsertUsageRecords batch st).1) := by
  refine ⟨rfl, ?_, rfl⟩
  intro u2 bd2 b2 hmem
  simp only [apiSyncOps] at hmem
  split at hmem <;> simp at hmem

/-- Witness for C7 at a concrete input: no schedule call is present in the
pipeline of a one-record batch. -/
theorem apiSync_synchronous_witness :
    SyncOp.scheduleCall "x" 0 [] ∉ apiSyncOps "u" 1 "c" [sampleRec] State.empty :=
  (apiSync_synchronous "u" 1 "c" [sampleRec] State.empty).2.1 "x" 0 []

/-- C5 counterexample: when the first per-cycle `INSERT` of
`RebuildCycleSummaries` fails, the operation reports an error but the state
differs from the state before the call — the delete of the pre-existing
cycle row is already visible — so the cycle rebuild is not atomic. -/
theorem rebuild_not_atomic_counterexample :
    (runRebuildE c5Oracle "u" 1 c5State).1 = none
      ∧ (runRebuildE c5Oracle "u" 1 c5State).2 ≠ c5State := by
  exact ⟨by decide, by decide⟩

/-- C5 (amended): the batch insert and the summary update are transactional —
on any storage-step failure they return an error and the visible state equals
the state before the call, and on success they apply exactly the pure
operation — but `RebuildCycleSummaries` is not: it issues plain deletes and
inserts outside any transaction, and a failure after the initial delete
leaves the deletion (and any completed cycle inserts) visible. -/
theorem storage_atomicity (fail : Nat → Bool) (u : String) (bd : Nat)
    (batch : List UsageRecord) (st : State) :
    ((runInsertE fail batch st).1 = none → (runInsertE fail batch st).2 = st)
    ∧ ((runInsertE fail batch st).1 ≠ none →
        runInsertE fail batch st
          = (some (InsertUsageRecords batch st).2, (InsertUsageRecords batch st).1))
    ∧ ((runUpdateE fail u bd batch st).1 = none → (runUpdateE fail u bd batch st).2 = st)
    ∧ ((runUpdateE fail u bd batch st).1 ≠ none →
        (runUpdateE fail u bd batch st).2 = UpdateSummaries u bd batch st)
    ∧ (runRebuildE c5Oracle "u" 1 c5State).1 = none
    ∧ (runRebuildE c5Oracle "u" 1 c5State).2 ≠ c5State := by
  refine ⟨?_, ?_, ?_, ?_, by decide, by decide⟩
  · simp only [runInsertE]
    split
    · intro _; rfl
    · intro h; simp at h
  · simp only [runInsertE]
    split
    · intro h; exact absurd rfl h
    · intro _; rfl
  · simp only [runUpdateE]
    split
    · intro h; simp at h
    · split
      · intro _; rfl
      · intro h; simp at h
  · simp only [runUpdateE]
    split
    · rename_i hb
      intro _
      simp [UpdateSummaries, hb]
    · split
      · intro h; exact absurd rfl h
      · intro _
        rename_i hb _
        simp [UpdateSummaries, hb]

/-- Witness for C5 at a concrete failing oracle: a failed insert transaction
leaves the store unchanged. -/
theorem storage_atomicity_witness :
    (runInsertE (fun _ => true) [sampleRec] State.empty).2 = State.empty :=
  (storage_atomicity (fun _ => true) "u" 1 [sampleRec] State.empty).1 (by decide)

/-- C4: `RebuildCycleSummaries` keeps the raw records untouched, its summary
output is a function of the summary table alone (it never reads raw events),
it deletes every existing cycle row of the user and replaces them with the
re-bucketing of the user's day summary rows into cycle keys; in the concrete
scenario, day summaries 2024-01-10 ($1) and 2024-01-20 ($2) fall into two
distinct cycles under anchor 15, and a rebuild with anchor 1 produces a
single January cycle row of cost $3. -/
theorem rebuildCycles_correct (u : String) (bd : Nat) (st : State)
    (r1 r2 : List StoredRecord) (t : List SummaryRow) :
    (RebuildCycleSummaries u bd st).records = st.records
    ∧ (RebuildCycleSummaries u bd ⟨r1, t⟩).summaries
        = (RebuildCycleSummaries u bd ⟨r2, t⟩).summaries
    ∧ (bd ≠ 0 → ¬bd > 31 → (RebuildCycleSummaries u bd st).summaries
        = st.summaries.filter (fun s => !(s.userId == u && s.ptype == PeriodType.cycle))
          ++ rebuiltCycleRows u bd st.summaries)
    ∧ (rebuiltCycleRows "u" 15 c4State.summaries).map (fun s => (s.key, s.agg.cost))
        = [(PKey.cycle 12 15 1 14, 1), (PKey.cycle 1 15 2 14, 2)]
    ∧ ((RebuildCycleSummaries "u" 1 c4State).summaries.filter
          (fun s => s.ptype == PeriodType.cycle)).map
            (fun s => (s.key, s.periodStart, s.periodEnd, s.agg.cost))
        = [(PKey.cycle 1 1 1 31, midnight ⟨2024, 1, 1⟩, ⟨⟨2024, 1, 31⟩, 86399⟩, 3)] := by
  refine ⟨?_, ?_, ?_,
    by norm_num [rebuiltCycleRows, c4State, mkDayRow, addDayToCycles, dayKeyDate,
      cycleStartDate, cycleEndTs, cycleKeyOf, clampDay, daysInMonth, isLeap,
      midnight, lastSecondBefore, prevDate],
    by norm_num [RebuildCycleSummaries, rebuiltCycleRows, c4State, mkDayRow,
      addDayToCycles, dayKeyDate, cycleStartDate, cycleEndTs, cycleKeyOf, clampDay,
      daysInMonth, isLeap, midnight, lastSecondBefore, prevDate]⟩
  · simp only [RebuildCycleSummaries]
    split <;> rfl
  · simp only [RebuildCycleSummaries]
    split <;> rfl
  · intro h1 h2
    simp only [RebuildCycleSummaries, if_neg (by omega : ¬(bd = 0 ∨ bd > 31))]

/-- Witness for C4 at the concrete scenario state with anchor 1. -/
theorem rebuildCycles_correct_witness :
    (RebuildCycleSummaries "u" 1 c4State).summaries
      = c4State.summaries.filter
          (fun s => !(s.userId == "u" && s.ptype == PeriodType.cycle))
        ++ rebuiltCycleRows "u" 1 c4State.summaries :=
  (rebuildCycles_correct "u" 1 c4State [] [] []).2.2.1 (by decide) (by decide)

/-- C9 counterexample: `c9State` holds one raw record in the open day
2024-05-15 (cache-read tokens only), so the open period has nonzero activity,
yet `GetUsageByDay` returns no live entry (and no entry at all): the code
prepends the live entry only when summed input or output tokens are
positive, not whenever the period has events. -/
theorem live_entry_counterexample :
    recsOnDay "u" ⟨2024, 5, 15⟩ c9State.records ≠ []
      ∧ GetUsageByDay "u" 0 c9State ⟨2024, 5, 15⟩ = [] := by
  exact ⟨by decide, by decide⟩

/-- C9 (amended): each usage query returns the live open period followed by
persisted summaries of prior periods: the live entry is the sum of raw
events of the open day / month / cycle and is prepended exactly when its
summed input or output tokens are positive (in particular an open period
with no events yields no entry); every persisted entry comes from a stored
summary row of the user whose key differs from the open period's key; the
persisted rows are ordered newest first; and summary rows only ever arise
for periods keyed by some update batch record. -/
theorem usage_queries_live (u : String) (bd : Nat) (batch : List UsageRecord)
    (st : State) (now : Date) :
    GetUsageByDay u bd st now
        = (if (sumRecords (recsOnDay u now st.records)).input > 0
              ∨ (sumRecords (recsOnDay u now st.records)).output > 0
           then [⟨PKey.day now, sumRecords (recsOnDay u now st.records)⟩] else [])
          ++ dayQuerySummaries u bd st now
    ∧ (∀ e ∈ dayQuerySummaries u bd st now, ∃ s ∈ st.summaries,
        s.userId = u ∧ s.ptype = PeriodType.day ∧ s.key = e.period
          ∧ s.agg = e.usage ∧ e.period ≠ PKey.day now)
    ∧ (dayQueryRows u bd st now).Pairwise (fun a b => b.key.sortKey ≤ a.key.sortKey)
    ∧ (recsOnDay u now st.records = [] →
        GetUsageByDay u bd st now = dayQuerySummaries u bd st now)
    ∧ GetUsageByMonth u st now
        = (if (sumRecords (recsInMonth u now.y now.m st.records)).input > 0
              ∨ (sumRecords (recsInMonth u now.y now.m st.records)).output > 0
           then [⟨PKey.month now.y now.m,
                  sumRecords (recsInMonth u now.y now.m st.records)⟩] else [])
          ++ monthQuerySummaries u st now
    ∧ (∀ e ∈ monthQuerySummaries u st now, ∃ s ∈ st.summaries,
        s.userId = u ∧ s.ptype = PeriodType.month ∧ s.key = e.period
          ∧ s.agg = e.usage ∧ e.period ≠ PKey.month now.y now.m)
    ∧ (monthQueryRows u st now).Pairwise (fun a b => b.key.sortKey ≤ a.key.sortKey)
    ∧ (∀ cs ce, GetBillingPeriod bd now = some (cs, ce) →
        GetUsageByBillingCycle u bd st now
          = (if (sumRecords (recsInRange u cs ce st.records)).input > 0
                ∨ (sumRecords (recsInRange u cs ce st.records)).output > 0
             then [⟨cycleKeyOf cs.date ce, sumRecords (recsInRange u cs ce st.records)⟩]
             else [])
            ++ cycleQuerySummaries u (cycleKeyOf cs.date ce) st)
    ∧ (∀ k, ∀ e ∈ cycleQuerySummaries u k st, ∃ s ∈ st.summaries,
        s.userId = u ∧ s.ptype = PeriodType.cycle ∧ s.key = e.period
          ∧ s.agg = e.usage ∧ e.period ≠ k)
    ∧ (∀ k, (cycleQueryRows u k st).Pairwise
        (fun a b => b.periodStart.key ≤ a.periodStart.key))
    ∧ (∀ s ∈ (UpdateSummaries u bd batch st).summaries,
        (∃ s0 ∈ st.summaries, s0.userId = s.userId ∧ s0.ptype = s.ptype ∧ s0.key = s.key)
        ∨ (s.userId = u
           ∧ ((∃ r ∈ batch, s.ptype = PeriodType.day ∧ s.key = PKey.day r.ts.date)
              ∨ (∃ r ∈ batch, s.ptype = PeriodType.month
                  ∧ s.key = PKey.month r.ts.date.y r.ts.date.m)
              ∨ (∃ c ∈ affectedCycles bd batch,
                  s.ptype = PeriodType.cycle ∧ s.key = c.1)))) := by
  refine ⟨?_, ?_, ?_, ?_, ?_, ?_, ?_, ?_, ?_, ?_, updateSummaries_key_origin u bd batch st⟩
  · simp only [GetUsageByDay]
    split <;> rfl
  · intro e he
    simp only [dayQuerySummaries, List.mem_map] at he
    obtain ⟨s, hs, he⟩ := he
    simp only [dayQueryRows] at hs
    have hmem := List.mem_filter.mp ((mem_sortDesc _ s _).mp (List.mem_of_mem_take hs))
    have hs4 := hmem.2
    simp only [Bool.and_eq_true, bne_iff_ne, beq_iff_eq] at hs4
    exact ⟨s, hmem.1, hs4.1.1.1, hs4.1.1.2, by rw [← he], by rw [← he],
      by rw [← he]; exact hs4.1.2⟩
  · simp only [dayQueryRows]
    exact List.Pairwise.sublist (List.take_sublist _ _) (pairwise_sortDesc _ _)
  · intro h
    simp only [GetUsageByDay, h]
    norm_num [sumRecords, Agg.zero]
  · simp only [GetUsageByMonth]
    split <;> rfl
  · intro e he
    simp only [monthQuerySummaries, List.mem_map] at he
    obtain ⟨s, hs, he⟩ := he
    simp only [monthQueryRows] at hs
    have hmem := List.mem_filter.mp ((mem_sortDesc _ s _).mp (List.mem_of_mem_take hs))
    have hs4 := hmem.2
    simp only [Bool.and_eq_true, bne_iff_ne, beq_iff_eq] at hs4
    exact ⟨s, hmem.1, hs4.1.1, hs4.1.2, by rw [← he], by rw [← he],
      by rw [← he]; exact hs4.2⟩
  · simp only [monthQueryRows]
    exact List.Pairwise.sublist (List.take_sublist _ _) (pairwise_sortDesc _ _)
  · intro cs ce hbp
    simp only [GetUsageByBillingCycle, hbp]
    split <;> rfl
  · intro k e he
    simp only [cycleQuerySummaries, List.mem_map] at he
    obtain ⟨s, hs, he⟩ := he
    simp only [cycleQueryRows] at hs
    have hmem := List.mem_filter.mp ((mem_sortDesc _ s _).mp hs)
    have hs4 := hmem.2
    simp only [Bool.and_eq_true, bne_iff_ne, beq_iff_eq] at hs4
    exact ⟨s, hmem.1, hs4.1.1, hs4.1.2, by rw [← he], by rw [← he],
      by rw [← he]; exact hs4.2⟩
  · intro k
    simp only [cycleQueryRows]
    exact pairwise_sortDesc _ _

/-- Witness for C9 at a concrete input: over the empty store the open day has
no events and the day query returns only the (empty) persisted part. -/
theorem usage_queries_live_witness :
    GetUsageByDay "u" 0 State.empty ⟨2024, 5, 15⟩
      = dayQuerySummaries "u" 0 State.empty ⟨2024, 5, 15⟩ :=
  (usage_queries_live "u" 0 [] State.empty ⟨2024, 5, 15⟩).2.2.2.1 rfl

/-- Witness for C8 at a concrete input: re-inserting the already-synced
one-record batch affects zero rows and returns the state unchanged. -/
theorem insert_idempotent_witness :
    InsertUsageRecords [sampleRec]
        (UpdateSummaries "u" 1 [sampleRec] (InsertUsageRecords [sampleRec] State.empty).1)
      = (UpdateSummaries "u" 1 [sampleRec] (InsertUsageRecords [sampleRec] State.empty).1, 0) :=
  (insert_idempotent "u" 1 [sampleRec] State.empty).2.2.2.1

/-- C10: for every user, `GetUsageByDay` returns at most 30 persisted day
summaries (at most 31 entries including the live day) and `GetUsageByMonth`
returns at most 12 persisted month summaries (at most 13 entries including
the live month), regardless of how many summarized periods exist. -/
theorem query_result_caps (u : String) (billingDay : Nat) (st : State) (now : Date) :
    (dayQuerySummaries u billingDay st now).length ≤ 30
      ∧ (GetUsageByDay u billingDay st now).length ≤ 31
      ∧ (monthQuerySummaries u st now).length ≤ 12
      ∧ (GetUsageByMonth u st now).length ≤ 13 := by
  have hd : (dayQuerySummaries u billingDay st now).length ≤ 30 := by
    simp only [dayQuerySummaries, dayQueryRows, List.length_map]
    exact List.length_take_le _ _
  have hm : (monthQuerySummaries u st now).length ≤ 12 := by
    simp only [monthQuerySummaries, monthQueryRows, List.length_map]
    exact List.length_take_le _ _
  refine ⟨hd, ?_, hm, ?_⟩
  · simp only [GetUsageByDay]
    split
    · simpa using Nat.succ_le_succ hd
    · exact le_trans hd (by norm_num)
  · simp only [GetUsageByMonth]
    split
    · simpa using Nat.succ_le_succ hm
    · exact le_trans hm (by norm_num)

/-- C3: `GetBillingPeriod` returns the null period exactly when the anchor is
0 or above 31; otherwise the period starts at the clamped anchor of the
current month (when today's day has reached it) or of the previous month
(with December-to-January rollover), and ends at the clamped anchor of the
month following the start, minus one second; anchor 31 in February lands on
Feb 28 in non-leap years and Feb 29 in leap years (shown both as period
start and, for a mid-February date, as period end + 1s). -/
theorem getBillingPeriod_correct (billingDay : Nat) (now : Date)
    (hy : 1 ≤ now.y) (hm1 : 1 ≤ now.m) (hm2 : now.m ≤ 12)
    (_hd1 : 1 ≤ now.d) (_hd2 : now.d ≤ daysInMonth now.y now.m) :
    (billingDay = 0 ∨ 31 < billingDay → GetBillingPeriod billingDay now = none)
    ∧ (1 ≤ billingDay → billingDay ≤ 31 →
        GetBillingPeriod billingDay now =
          some (midnight (claimedBillingStart billingDay now),
                cycleEndTs billingDay (claimedBillingStart billingDay now)))
    ∧ GetBillingPeriod 31 ⟨2023, 2, 28⟩ = some (midnight ⟨2023, 2, 28⟩, ⟨⟨2023, 3, 30⟩, 86399⟩)
    ∧ GetBillingPeriod 31 ⟨2024, 2, 29⟩ = some (midnight ⟨2024, 2, 29⟩, ⟨⟨2024, 3, 30⟩, 86399⟩)
    ∧ GetBillingPeriod 31 ⟨2023, 2, 15⟩ = some (midnight ⟨2023, 1, 31⟩, ⟨⟨2023, 2, 27⟩, 86399⟩)
    ∧ GetBillingPeriod 31 ⟨2024, 2, 15⟩ = some (midnight ⟨2024, 1, 31⟩, ⟨⟨2024, 2, 28⟩, 86399⟩) := by
  refine ⟨?_, ?_, by decide, by decide, by decide, by decide⟩
  · intro h
    simp only [GetBillingPeriod]
    rw [if_pos]
    omega
  · intro hb1 hb31
    have hguard : ¬(billingDay = 0 ∨ billingDay > 31) := by omega
    simp only [GetBillingPeriod, if_neg hguard]
    by_cases hge : now.d ≥ clampDay now.y now.m billingDay
    · have hnlt : ¬(now.d < clampDay now.y now.m billingDay) := by omega
      simp only [claimedBillingStart, cycleEndTs, if_pos hge, if_neg hnlt]
    · have hlt : now.d < clampDay now.y now.m billingDay := by omega
      simp only [claimedBillingStart, cycleEndTs, if_neg hge, if_pos hlt]
      by_cases hm : now.m > 1
      · simp only [if_pos hm]
        have h1 : now.m - 1 + 1 = now.m := by omega
        rw [h1]
      · have hmeq : now.m = 1 := by omega
        rw [hmeq]
        have h3 : now.y - 1 + 1 = now.y := by omega
        norm_num [h3]

/-- Witness for C3 at a concrete date: anchor 15 on 2024-01-10 yields the
period 2023-12-15 .. 2024-01-14 23:59:59. -/
theorem getBillingPeriod_correct_witness :
    GetBillingPeriod 15 ⟨2024, 1, 10⟩
      = some (midnight ⟨2023, 12, 15⟩, ⟨⟨2024, 1, 14⟩, 86399⟩) := by
  have h := (getBillingPeriod_correct 15 ⟨2024, 1, 10⟩ (by decide) (by decide)
    (by decide) (by decide) (by decide)).2.1 (by decide) (by decide)
  exact h.trans (by decide)

end Cctop
